import Mathlib

/-!
Automatic gain control of the armor detector node.

A shallow embedding of the brightness-metering and gain-control code of
`src/rm_auto_aim/armor_detector/src/detector_node.cpp`
(`getLightMeanBrightness`, `getArmorROI` and the `Use_AAG_` block of
`imageCallback`), followed by the properties proved about it.

The code is embedded twice.

* The exact embedding (namespace `RmAutoAim`) models `float` and `double` by exact
  rationals (`ℚ`) and `int` by `Int`; the conversion of a floating value to `int`
  truncates toward zero (`truncToInt`). It is used for the properties that concern the
  structure of the computation: which formula the controller evaluates, which branch
  is taken, which patches and weights enter the metering.
* The machine embedding (namespace `RmAutoAim.Ieee`) repeats the same code with IEEE 754
  arithmetic: rounding to binary32 and binary64, overflow to an infinity, NaN, and a
  conversion to `int` that is undefined outside 32 bits. It is used for the properties
  whose truth depends on rounding, on NaN or on overflow.

In both, a call into OpenCV that throws (`cv::Mat::operator()(Rect)` on a rectangle
that is not inside the matrix) is modelled by `none`.
-/

namespace RmAutoAim

/-! ## Data model -/

/-- The OpenCV type `cv::Rect` (`cv::Rect_<int>`): integer origin and size. -/
structure Rect where
  x : Int
  y : Int
  width : Int
  height : Int
  deriving DecidableEq, Repr

/-- Modelled from the spec: the header `armor_detector/armor.hpp` declaring `Light` is
not among the sources. `getLightMeanBrightness` copies a `Light` into a `cv::Rect`
(`cv::Rect light_box = light;`), and the spec describes a light bar as an axis-aligned
rectangle `x, y, width, height`; a `Light` is therefore its rectangle. -/
abbrev Light := Rect

/-- Modelled from the spec: the header `armor_detector/armor.hpp` declaring `Armor` is
not among the sources. Only the two light bars read by `getArmorROI` are kept. -/
structure Armor where
  left_light : Light
  right_light : Light
  deriving DecidableEq, Repr

/-- A single-channel 8-bit image (`cv::Mat` of type `CV_8UC1`, the result of
`cv::cvtColor(img, gray_img, cv::COLOR_RGB2GRAY)`): its size and the value of the pixel
at row `r`, column `c`. -/
structure Mat where
  rows : Nat
  cols : Nat
  pix : Nat → Nat → Nat

/-- The members of `ArmorDetectorNode` read or written by the gain control code. -/
structure Node where
  target_brightness_global_ : ℚ
  target_brightness_armor_ : ℚ
  Kp_ : ℚ
  Ki_ : ℚ
  Kd_ : ℚ
  Use_AAG_ : Bool
  current_exposure_ : ℚ
  current_gain_ : ℚ
  integral_ : ℚ
  last_error_ : ℚ
  deriving DecidableEq

/-! ## OpenCV and standard library operations -/

/-- Conversion of a floating value to `int`: truncation toward zero. -/
def truncToInt (q : ℚ) : Int := if 0 ≤ q then ⌊q⌋ else ⌈q⌉

/-- The function `std::clamp(v, lo, hi)`: `(v < lo) ? lo : (hi < v) ? hi : v`. -/
def clamp (v lo hi : ℚ) : ℚ := if v < lo then lo else if hi < v then hi else v

/-- Sum of the pixels of `m` in the rectangle `r`. -/
def rectSum (m : Mat) (r : Rect) : Nat :=
  ((List.range r.height.toNat).map fun dy =>
    ((List.range r.width.toNat).map fun dx =>
      m.pix (r.y.toNat + dy) (r.x.toNat + dx)).sum).sum

/-- The precondition asserted by `cv::Mat::operator()(const Rect&)`. -/
def Rect.inside (r : Rect) (m : Mat) : Prop :=
  0 ≤ r.x ∧ 0 ≤ r.width ∧ r.x + r.width ≤ m.cols ∧
  0 ≤ r.y ∧ 0 ≤ r.height ∧ r.y + r.height ≤ m.rows

instance (r : Rect) (m : Mat) : Decidable (r.inside m) := by
  unfold Rect.inside; infer_instance

/-- The expression `cv::mean(gray_img(roi))[0]`: `none` when `gray_img(roi)` throws
because `roi` is not inside the image, otherwise the arithmetic mean of the pixels of
`roi` (`0` for an empty `roi`, as `cv::mean` returns for an empty matrix). -/
def roiMean (m : Mat) (r : Rect) : Option ℚ :=
  if r.inside m then
    some (if r.width * r.height = 0 then 0
          else (rectSum m r : ℚ) / ((r.width * r.height : Int) : ℚ))
  else none

/-! ## `getLightMeanBrightness` and `getArmorROI` -/

/-- The constant `SCALE` of `getLightMeanBrightness`. -/
def SCALE : ℚ := 0.07

/-- The rectangle `light_box` that `getLightMeanBrightness` passes to
`gray_img(light_box)`: the light bar scaled (source lines 128-132) and then checked
against the image boundary (lines 135-140). Each compound assignment to an `int` field
with a floating right-hand side converts the floating result back to `int`. -/
def lightBox (light : Light) (gray_img : Mat) : Rect :=
  let light_box : Rect := light
  -- Scale the bounding box
  let light_box := { light_box with
    x := truncToInt ((light_box.x : ℚ) - (light_box.width : ℚ) * SCALE) }
  let light_box := { light_box with
    y := truncToInt ((light_box.y : ℚ) - (light_box.height : ℚ) * SCALE) }
  let light_box := { light_box with
    width := truncToInt ((light_box.width : ℚ) + (light_box.width : ℚ) * SCALE * 2) }
  let light_box := { light_box with
    height := truncToInt ((light_box.height : ℚ) + (light_box.height : ℚ) * SCALE * 2) }
  -- Check boundary
  let light_box := { light_box with x := max light_box.x 0 }
  let light_box := { light_box with x := min light_box.x ((gray_img.cols : Int) - 1) }
  let light_box := { light_box with y := max light_box.y 0 }
  let light_box := { light_box with y := min light_box.y ((gray_img.rows : Int) - 1) }
  let light_box := { light_box with
    width := min light_box.width ((gray_img.cols : Int) - light_box.x) }
  let light_box := { light_box with
    height := min light_box.height ((gray_img.rows : Int) - light_box.y) }
  light_box

/-- The method `ArmorDetectorNode::getLightMeanBrightness`. -/
def getLightMeanBrightness (light : Light) (gray_img : Mat) : Option ℚ :=
  roiMean gray_img (lightBox light gray_img)

/-- The method `ArmorDetectorNode::getArmorROI`. -/
def getArmorROI (armor : Armor) (image : Mat) : Option ℚ := do
  let left_bright ← getLightMeanBrightness armor.left_light image
  let right_bright ← getLightMeanBrightness armor.right_light image
  let mean_bright := (left_bright + right_bright) / 2.0
  pure mean_bright

/-! ## `imageCallback`: metering -/

/-- The rectangle `roi` built at iteration `(i, j)` of the grid loop of
`imageCallback` (source lines 163-167). -/
def patchRoi (gray_img : Mat) (i j : Nat) : Rect :=
  let patch_width : Int := ((gray_img.cols / 3 : Nat) : Int)
  let patch_height : Int := ((gray_img.rows / 3 : Nat) : Int)
  { x := j * patch_width, y := i * patch_height, width := patch_width, height := patch_height }

/-- The body of the grid loop at iteration `(i, j)` (source lines 167-176), acting on
the local variable `current_brightness`. -/
def gridBody (gray_img : Mat) (i j : Nat) (current_brightness : ℚ) : Option ℚ := do
  let m ← roiMean gray_img (patchRoi gray_img i j)
  if i = 0 ∧ j = 0 then
    pure (0.05 * m)
  else if i = 1 ∧ j = 1 then
    pure (current_brightness + 0.4 * m)
  else if i = 1 ∨ j = 1 then
    pure (current_brightness + 0.1 * m)
  else
    pure (current_brightness + 0.05 * m)

/-- The two nested `for` loops of the no-armor branch of `imageCallback` (source lines
165-178). The local `current_brightness` is declared without an initialiser; `uninit`
stands for whatever value it holds when the loops start. -/
def globalBrightness (gray_img : Mat) (uninit : ℚ) : Option ℚ :=
  (List.range 3).foldlM
    (fun current_brightness i =>
      (List.range 3).foldlM
        (fun current_brightness j => gridBody gray_img i j current_brightness)
        current_brightness)
    uninit

/-- The metering block of `imageCallback` (source lines 156-179): the values of
`current_brightness` and `target_brightness_` when the PID block is reached. -/
def meter (node : Node) (gray_img : Mat) (armors : List Armor) (uninit : ℚ) :
    Option (ℚ × ℚ) :=
  match armors with
  | armor0 :: _ => do
    let current_brightness ← getArmorROI armor0 gray_img
    pure (current_brightness, node.target_brightness_armor_)
  | [] => do
    let current_brightness ← globalBrightness gray_img uninit
    pure (current_brightness, node.target_brightness_global_)

/-! ## `imageCallback`: PID step -/

/-- The PID block of `imageCallback` (source lines 181-188). -/
def pidStep (node : Node) (current_brightness target_brightness_ : ℚ) : Node :=
  let error := target_brightness_ - current_brightness
  let node := { node with integral_ := node.integral_ + error }
  let derivative := error - node.last_error_
  let node := { node with last_error_ := error }
  let node := { node with
    current_gain_ := node.current_gain_ +
      (node.Kp_ * error + node.Ki_ * node.integral_ + node.Kd_ * derivative) }
  let node := { node with current_gain_ := clamp node.current_gain_ 0.0 25.0 }
  node

/-- The gain control part of `ArmorDetectorNode::imageCallback` (source lines 149-198):
the members of the node after one frame, given the grey image of the frame and the
armors returned by `detectArmors`; `none` when an OpenCV call throws. -/
def imageCallback (node : Node) (gray_img : Mat) (armors : List Armor) (uninit : ℚ) :
    Option Node :=
  if node.Use_AAG_ then do
    let (current_brightness, target_brightness_) ← meter node gray_img armors uninit
    pure (pidStep node current_brightness target_brightness_)
  else
    some node

/-- The node after a sequence of frames, each given as its grey image, the armors
detected in it and the initial content of the uninitialised local. -/
def runFrames (node : Node) : List (Mat × List Armor × ℚ) → Option Node
  | [] => some node
  | (gray_img, armors, uninit) :: rest =>
    (imageCallback node gray_img armors uninit).bind fun node => runFrames node rest

/-! ## IEEE 754 arithmetic

The second embedding below repeats the code above with the machine arithmetic of the
C++ program: every `float` operation rounds to binary32 and every `double` operation
to binary64 (round to nearest, ties to even, with overflow to an infinity and gradual
underflow), NaN and the infinities propagate as IEEE 754 prescribes, and the conversion
of a floating value to `int` is defined only when the truncated value fits in 32 bits.
The two zeros are identified; no operation of the program distinguishes them. -/

/-- A value of a C++ `float` or `double`: a finite number, an infinity or NaN. -/
inductive Fp where
  | fin (q : ℚ)
  | pinf
  | ninf
  | nan
  deriving DecidableEq

/-- A binary floating-point format: precision in bits and largest exponent. -/
structure Format where
  prec : Nat
  emax : Int

/-- The format of a C++ `float`. -/
def binary32 : Format := { prec := 24, emax := 127 }

/-- The format of a C++ `double`. -/
def binary64 : Format := { prec := 53, emax := 1023 }

/-- The integer nearest to `x`, ties going to the even one. -/
def roundNE (x : ℚ) : Int :=
  if x - ⌊x⌋ < 1 / 2 then ⌊x⌋
  else if 1 / 2 < x - ⌊x⌋ then ⌊x⌋ + 1
  else if ⌊x⌋ % 2 = 0 then ⌊x⌋ else ⌊x⌋ + 1

/-- The exponent of the unit in the last place used to round `q`: the binade of `q`
for a normal result, the fixed subnormal spacing below it. -/
def Format.ulpExp (f : Format) (q : ℚ) : Int :=
  max (Int.log 2 |q| - ((f.prec : Int) - 1)) (2 - f.emax - (f.prec : Int))

/-- The number `q` rounded to the nearest multiple of its unit in the last place. -/
def Format.roundRaw (f : Format) (q : ℚ) : ℚ :=
  (roundNE (q / (2 : ℚ) ^ f.ulpExp q) : ℚ) * (2 : ℚ) ^ f.ulpExp q

/-- Rounding of the exact result `q` of an operation to the format `f`: round to
nearest even, an infinity when the rounded magnitude reaches `2 ^ (emax + 1)`. -/
def Format.round (f : Format) (q : ℚ) : Fp :=
  if q = 0 then Fp.fin 0
  else if (2 : ℚ) ^ (f.emax + 1) ≤ |f.roundRaw q| then (if 0 < q then Fp.pinf else Fp.ninf)
  else Fp.fin (f.roundRaw q)

/-- Negation. -/
def Fp.neg : Fp → Fp
  | Fp.fin q => Fp.fin (-q)
  | Fp.pinf => Fp.ninf
  | Fp.ninf => Fp.pinf
  | Fp.nan => Fp.nan

/-- Addition in the format `f`. -/
def Fp.add (f : Format) : Fp → Fp → Fp
  | Fp.nan, _ => Fp.nan
  | _, Fp.nan => Fp.nan
  | Fp.pinf, Fp.ninf => Fp.nan
  | Fp.ninf, Fp.pinf => Fp.nan
  | Fp.pinf, _ => Fp.pinf
  | _, Fp.pinf => Fp.pinf
  | Fp.ninf, _ => Fp.ninf
  | _, Fp.ninf => Fp.ninf
  | Fp.fin x, Fp.fin y => f.round (x + y)

/-- Subtraction in the format `f`. -/
def Fp.sub (f : Format) (a b : Fp) : Fp := Fp.add f a b.neg

/-- The product of an infinity of sign `pos` by the finite number `x`. -/
def Fp.infTimes (pos : Bool) (x : ℚ) : Fp :=
  if x = 0 then Fp.nan
  else if (0 < x) = pos then Fp.pinf else Fp.ninf

/-- Multiplication in the format `f`. -/
def Fp.mul (f : Format) : Fp → Fp → Fp
  | Fp.nan, _ => Fp.nan
  | _, Fp.nan => Fp.nan
  | Fp.fin x, Fp.fin y => f.round (x * y)
  | Fp.fin x, Fp.pinf => Fp.infTimes true x
  | Fp.fin x, Fp.ninf => Fp.infTimes false x
  | Fp.pinf, Fp.fin y => Fp.infTimes true y
  | Fp.ninf, Fp.fin y => Fp.infTimes false y
  | Fp.pinf, Fp.pinf => Fp.pinf
  | Fp.pinf, Fp.ninf => Fp.ninf
  | Fp.ninf, Fp.pinf => Fp.ninf
  | Fp.ninf, Fp.ninf => Fp.pinf

/-- Division in the format `f`; a zero divisor counts as `+0`. -/
def Fp.div (f : Format) : Fp → Fp → Fp
  | Fp.nan, _ => Fp.nan
  | _, Fp.nan => Fp.nan
  | Fp.fin x, Fp.fin y =>
    if y = 0 then (if x = 0 then Fp.nan else if 0 < x then Fp.pinf else Fp.ninf)
    else f.round (x / y)
  | Fp.fin _, Fp.pinf => Fp.fin 0
  | Fp.fin _, Fp.ninf => Fp.fin 0
  | Fp.pinf, Fp.fin y => if 0 ≤ y then Fp.pinf else Fp.ninf
  | Fp.ninf, Fp.fin y => if 0 ≤ y then Fp.ninf else Fp.pinf
  | Fp.pinf, Fp.pinf => Fp.nan
  | Fp.pinf, Fp.ninf => Fp.nan
  | Fp.ninf, Fp.pinf => Fp.nan
  | Fp.ninf, Fp.ninf => Fp.nan

/-- Conversion of a floating value to the format `f` (`double` to `float` rounds,
`float` to `double` is exact). -/
def Fp.cast (f : Format) : Fp → Fp
  | Fp.fin q => f.round q
  | x => x

/-- The comparison `a < b`; false as soon as one side is NaN. -/
def Fp.lt : Fp → Fp → Bool
  | Fp.nan, _ => false
  | _, Fp.nan => false
  | Fp.fin x, Fp.fin y => decide (x < y)
  | Fp.fin _, Fp.pinf => true
  | Fp.fin _, Fp.ninf => false
  | Fp.pinf, _ => false
  | Fp.ninf, Fp.ninf => false
  | Fp.ninf, _ => true

/-- Conversion of a floating value to a 32-bit `int`: truncation toward zero, undefined
(`none`) for NaN, an infinity or a truncated value outside `[-2^31, 2^31 - 1]`. -/
def Fp.toInt : Fp → Option Int
  | Fp.fin q =>
    if -2147483648 ≤ truncToInt q ∧ truncToInt q ≤ 2147483647 then some (truncToInt q)
    else none
  | _ => none

namespace Ieee

/-- Conversion of an `int` to `float`. -/
def ofInt (n : Int) : Fp := binary32.round (n : ℚ)

/-- The function `std::clamp(v, lo, hi)` on `double`:
`(v < lo) ? lo : (hi < v) ? hi : v`. -/
def clamp (v lo hi : Fp) : Fp := if Fp.lt v lo then lo else if Fp.lt hi v then hi else v

/-- The value `s * (nz0 ? 1./nz0 : 0)` returned by `cv::mean` for the pixels of `r`:
the pixel sum `s` (an integer, exact in `double` below `2^53`) times the rounded
reciprocal of the pixel count. -/
def rectMean (m : Mat) (r : Rect) : Fp :=
  let s := binary64.round (rectSum m r : ℚ)
  let nz0 : Int := r.width * r.height
  Fp.mul binary64 s
    (if nz0 ≠ 0 then Fp.div binary64 (Fp.fin 1) (binary64.round (nz0 : ℚ)) else Fp.fin 0)

/-- The expression `cv::mean(gray_img(roi))[0]`: `none` when `gray_img(roi)` throws. -/
def roiMean (m : Mat) (r : Rect) : Option Fp :=
  if r.inside m then some (rectMean m r) else none

/-- The constant `constexpr float SCALE = 0.07`: the `double` literal narrowed to
`float`. -/
def SCALE : Fp := Fp.cast binary32 (binary64.round 0.07)

/-- The rectangle `light_box` of `getLightMeanBrightness` (source lines 128-140) in
machine arithmetic: `none` when a conversion to `int` is undefined. -/
def lightBox (light : Light) (gray_img : Mat) : Option Rect := do
  let light_box : Rect := light
  -- Scale the bounding box
  let x ← Fp.toInt
    (Fp.sub binary32 (ofInt light_box.x) (Fp.mul binary32 (ofInt light_box.width) SCALE))
  let light_box := { light_box with x := x }
  let y ← Fp.toInt
    (Fp.sub binary32 (ofInt light_box.y) (Fp.mul binary32 (ofInt light_box.height) SCALE))
  let light_box := { light_box with y := y }
  let width ← Fp.toInt
    (Fp.add binary32 (ofInt light_box.width)
      (Fp.mul binary32 (Fp.mul binary32 (ofInt light_box.width) SCALE) (ofInt 2)))
  let light_box := { light_box with width := width }
  let height ← Fp.toInt
    (Fp.add binary32 (ofInt light_box.height)
      (Fp.mul binary32 (Fp.mul binary32 (ofInt light_box.height) SCALE) (ofInt 2)))
  let light_box := { light_box with height := height }
  -- Check boundary
  let light_box := { light_box with x := max light_box.x 0 }
  let light_box := { light_box with x := min light_box.x ((gray_img.cols : Int) - 1) }
  let light_box := { light_box with y := max light_box.y 0 }
  let light_box := { light_box with y := min light_box.y ((gray_img.rows : Int) - 1) }
  let light_box := { light_box with
    width := min light_box.width ((gray_img.cols : Int) - light_box.x) }
  let light_box := { light_box with
    height := min light_box.height ((gray_img.rows : Int) - light_box.y) }
  pure light_box

/-- The method `ArmorDetectorNode::getLightMeanBrightness`: the mean over `light_box`
narrowed to `float`; `none` when a conversion is undefined or `gray_img(light_box)`
throws. -/
def getLightMeanBrightness (light : Light) (gray_img : Mat) : Option Fp := do
  let light_box ← lightBox light gray_img
  let mean ← roiMean gray_img light_box
  pure (Fp.cast binary32 mean)

/-- The method `ArmorDetectorNode::getArmorROI`: the `float` sum of the two samples,
halved in `double` and narrowed to `float`. -/
def getArmorROI (armor : Armor) (image : Mat) : Option Fp := do
  let left_bright ← getLightMeanBrightness armor.left_light image
  let right_bright ← getLightMeanBrightness armor.right_light image
  let mean_bright :=
    Fp.cast binary32 (Fp.div binary64 (Fp.add binary32 left_bright right_bright) (Fp.fin 2))
  pure mean_bright

/-- The body of the grid loop at iteration `(i, j)` (source lines 167-176): the product
is formed in `double`, the accumulator `current_brightness` is a `float`. -/
def gridBody (gray_img : Mat) (i j : Nat) (current_brightness : Fp) : Option Fp := do
  let m ← roiMean gray_img (patchRoi gray_img i j)
  if i = 0 ∧ j = 0 then
    pure (Fp.cast binary32 (Fp.mul binary64 (binary64.round 0.05) m))
  else if i = 1 ∧ j = 1 then
    pure (Fp.cast binary32
      (Fp.add binary64 current_brightness (Fp.mul binary64 (binary64.round 0.4) m)))
  else if i = 1 ∨ j = 1 then
    pure (Fp.cast binary32
      (Fp.add binary64 current_brightness (Fp.mul binary64 (binary64.round 0.1) m)))
  else
    pure (Fp.cast binary32
      (Fp.add binary64 current_brightness (Fp.mul binary64 (binary64.round 0.05) m)))

/-- The two nested `for` loops of the no-armor branch of `imageCallback` (source lines
165-178); `uninit` is the content of the uninitialised local `current_brightness`. -/
def globalBrightness (gray_img : Mat) (uninit : Fp) : Option Fp :=
  (List.range 3).foldlM
    (fun current_brightness i =>
      (List.range 3).foldlM
        (fun current_brightness j => gridBody gray_img i j current_brightness)
        current_brightness)
    uninit

/-- The members of `ArmorDetectorNode` used by the gain control code, as `double`
values. -/
structure Node where
  target_brightness_global_ : Fp
  target_brightness_armor_ : Fp
  Kp_ : Fp
  Ki_ : Fp
  Kd_ : Fp
  Use_AAG_ : Bool
  current_exposure_ : Fp
  current_gain_ : Fp
  integral_ : Fp
  last_error_ : Fp
  deriving DecidableEq

/-- The metering block of `imageCallback` (source lines 156-179): the `float` locals
`current_brightness` and `target_brightness_` when the PID block is reached. -/
def meter (node : Node) (gray_img : Mat) (armors : List Armor) (uninit : Fp) :
    Option (Fp × Fp) :=
  match armors with
  | armor0 :: _ => do
    let current_brightness ← getArmorROI armor0 gray_img
    pure (current_brightness, Fp.cast binary32 node.target_brightness_armor_)
  | [] => do
    let current_brightness ← globalBrightness gray_img uninit
    pure (current_brightness, Fp.cast binary32 node.target_brightness_global_)

/-- The PID block up to the update of `current_gain_` (source lines 182-187): `error`
and `derivative` are `float` locals, the members are `double`. -/
def pidUpdate (node : Node) (current_brightness target_brightness_ : Fp) : Node :=
  let error := Fp.sub binary32 target_brightness_ current_brightness
  let node := { node with integral_ := Fp.add binary64 node.integral_ error }
  let derivative := Fp.cast binary32 (Fp.sub binary64 error node.last_error_)
  let node := { node with last_error_ := error }
  let node := { node with
    current_gain_ := Fp.add binary64 node.current_gain_
      (Fp.add binary64
        (Fp.add binary64 (Fp.mul binary64 node.Kp_ error)
          (Fp.mul binary64 node.Ki_ node.integral_))
        (Fp.mul binary64 node.Kd_ derivative)) }
  node

/-- The PID block of `imageCallback` (source lines 181-188). -/
def pidStep (node : Node) (current_brightness target_brightness_ : Fp) : Node :=
  let node := pidUpdate node current_brightness target_brightness_
  let node := { node with
    current_gain_ := clamp node.current_gain_ (Fp.fin 0.0) (Fp.fin 25.0) }
  node

/-- The gain control part of `ArmorDetectorNode::imageCallback` (source lines 149-198)
in machine arithmetic. -/
def imageCallback (node : Node) (gray_img : Mat) (armors : List Armor) (uninit : Fp) :
    Option Node :=
  if node.Use_AAG_ then do
    let (current_brightness, target_brightness_) ← meter node gray_img armors uninit
    pure (pidStep node current_brightness target_brightness_)
  else
    some node

/-- The nodes reached after each of a sequence of PID steps fed with
`(measured, setpoint)` pairs. -/
def pidTrace (node : Node) : List (Fp × Fp) → List Node
  | [] => []
  | (measured, setpoint) :: rest =>
    pidStep node measured setpoint :: pidTrace (pidStep node measured setpoint) rest

end Ieee

/-! ## Definitions used to state the properties -/


/-- The controller state of the specification (section 3): `integral`, `lastError`
and `currentGain`. -/
structure ControllerState where
  integral : ℚ
  lastError : ℚ
  currentGain : ℚ
  deriving DecidableEq

/-- The controller state held by a node. -/
def Node.controller (node : Node) : ControllerState :=
  { integral := node.integral_, lastError := node.last_error_,
    currentGain := node.current_gain_ }

/-- The mean that iteration `(i, j)` of the grid loop reads, `0` if the read throws. -/
def patchMean (gray_img : Mat) (i j : Nat) : ℚ :=
  (roiMean gray_img (patchRoi gray_img i j)).getD 0

/-- The pixel at row `row`, column `col` lies in the rectangle `r`. -/
def Rect.hasPixel (r : Rect) (row col : Nat) : Prop :=
  r.x ≤ col ∧ (col : Int) < r.x + r.width ∧ r.y ≤ row ∧ (row : Int) < r.y + r.height

instance (r : Rect) (row col : Nat) : Decidable (r.hasPixel row col) := by
  unfold Rect.hasPixel; infer_instance

/-- Every pixel of `inner` lies in `outer`, for a non-empty `inner`. -/
def Rect.containsRect (outer inner : Rect) : Prop :=
  outer.x ≤ inner.x ∧ inner.x + inner.width ≤ outer.x + outer.width ∧
  outer.y ≤ inner.y ∧ inner.y + inner.height ≤ outer.y + outer.height

instance (outer inner : Rect) : Decidable (outer.containsRect inner) := by
  unfold Rect.containsRect; infer_instance

/-- The rectangle `r` has no pixel in common with the image `m`. -/
def Rect.outside (r : Rect) (m : Mat) : Prop :=
  r.x + r.width ≤ 0 ∨ (m.cols : Int) ≤ r.x ∨ r.y + r.height ≤ 0 ∨ (m.rows : Int) ≤ r.y

instance (r : Rect) (m : Mat) : Decidable (r.outside m) := by
  unfold Rect.outside; infer_instance

/-- A node with the default parameters declared by the constructor
(source lines 65-74). -/
def defaultNode : Node :=
  { target_brightness_global_ := 10.0, target_brightness_armor_ := 30.0,
    Kp_ := 0.1, Ki_ := 0.0, Kd_ := 0.1, Use_AAG_ := true,
    current_exposure_ := 2500.0, current_gain_ := 8.0,
    integral_ := 0.0, last_error_ := 0.0 }

/-- The image with `rows` rows and `cols` columns all of whose pixels are `v`. -/
def uniformMat (rows cols v : Nat) : Mat := { rows := rows, cols := cols, pix := fun _ _ => v }

/-- A 10 by 10 image whose pixel at row `r`, column `c` is `10 * r + c`. -/
def rampMat : Mat := { rows := 10, cols := 10, pix := fun r c => 10 * r + c }

/-- A 30 by 20 image with a bright vertical bar (value 200) on columns 5 to 8 over a
dark background (value 10). -/
def barMat : Mat :=
  { rows := 30, cols := 20, pix := fun _ c => if 5 ≤ c ∧ c < 9 then 200 else 10 }

/-- The value `x` is a finite number in `[lo, hi]`. -/
def Fp.InRange (x : Fp) (lo hi : ℚ) : Prop := ∃ q, x = Fp.fin q ∧ lo ≤ q ∧ q ≤ hi

/-- The value `x` is a finite number of magnitude at most `2 ^ j`. -/
def Fp.Bdd (x : Fp) (j : Int) : Prop := ∃ q, x = Fp.fin q ∧ |q| ≤ (2 : ℚ) ^ j

/-- The value `x` is finite and within relative error `ε` of the number `t`. -/
def Fp.Near (x : Fp) (t ε : ℚ) : Prop := ∃ y, x = Fp.fin y ∧ |y - t| ≤ ε * t

/-- The number `t` is zero or lies in the range `[2^-60, 2^60]`, where both formats
round with their full precision. -/
def Ieee.Scale (t : ℚ) : Prop :=
  t = 0 ∨ ((2 : ℚ) ^ (-60 : Int) ≤ t ∧ t ≤ (2 : ℚ) ^ (60 : Int))

/-- The pixel value `v` as a number: zero or between 1 and 255. -/
def Ieee.PixelValue (v : ℚ) : Prop := v = 0 ∨ (1 ≤ v ∧ v ≤ 255)

/-- The rectangle has positive width and height of at most `2^29 = 536870912` and an
origin whose coordinates have magnitude at most `2^29`. -/
def Rect.Moderate (r : Rect) : Prop :=
  -536870912 ≤ r.x ∧ r.x ≤ 536870912 ∧ -536870912 ≤ r.y ∧ r.y ≤ 536870912 ∧
  0 < r.width ∧ r.width ≤ 536870912 ∧ 0 < r.height ∧ r.height ≤ 536870912

instance (r : Rect) : Decidable r.Moderate := by
  unfold Rect.Moderate; infer_instance

/-- The `double` value `2^1023`, about `9e307`. -/
def Ieee.hugeGain : ℚ := 2 ^ 1023

/-- A node with finite members whose gains `Kp_` and `Kd_` are the `double` values
`2^1023` and `-2^1023`. -/
def Ieee.hugeGainNode : Ieee.Node :=
  { target_brightness_global_ := Fp.fin 10, target_brightness_armor_ := Fp.fin 30,
    Kp_ := Fp.fin Ieee.hugeGain, Ki_ := Fp.fin 0, Kd_ := Fp.fin (-Ieee.hugeGain),
    Use_AAG_ := true,
    current_exposure_ := Fp.fin 2500, current_gain_ := Fp.fin 8,
    integral_ := Fp.fin 0, last_error_ := Fp.fin 0 }

/-- The node with the default parameters declared by the constructor (source lines
65-74), each literal rounded to `double`. -/
def Ieee.defaultNode : Ieee.Node :=
  { target_brightness_global_ := binary64.round 10.0,
    target_brightness_armor_ := binary64.round 30.0,
    Kp_ := binary64.round 0.1, Ki_ := binary64.round 0.0, Kd_ := binary64.round 0.1,
    Use_AAG_ := true,
    current_exposure_ := binary64.round 2500.0, current_gain_ := binary64.round 8.0,
    integral_ := Fp.fin 0, last_error_ := Fp.fin 0 }

/-- The first assignment of the grid loop: `current_brightness = 0.05 * m`. -/
def Ieee.gridFirst (m : Fp) : Fp := Fp.cast binary32 (Fp.mul binary64 (binary64.round 0.05) m)

/-- A later iteration of the grid loop: `current_brightness += w * m`. -/
def Ieee.gridAcc (w : ℚ) (current_brightness m : Fp) : Fp :=
  Fp.cast binary32 (Fp.add binary64 current_brightness (Fp.mul binary64 (binary64.round w) m))

/-- The mean read at iteration `(i, j)` of the grid loop. -/
def Ieee.patchMean (gray_img : Mat) (i j : Nat) : Fp :=
  Ieee.rectMean gray_img (patchRoi gray_img i j)

/-! ## Auxiliary lemmas: conversions and clamping -/

/-- A non-negative value between `n` and `n + 1` converts to `n`. -/
theorem truncToInt_eq (q : ℚ) (n : Int) (h0 : 0 ≤ q) (h1 : (n : ℚ) ≤ q) (h2 : q < n + 1) :
    truncToInt q = n := by
  unfold truncToInt
  rw [if_pos h0]
  exact Int.floor_eq_iff.mpr ⟨h1, h2⟩

/-- A negative value between `n - 1` and `n` converts to `n`. -/
theorem truncToInt_eq_neg (q : ℚ) (n : Int) (h0 : q < 0) (h1 : (n : ℚ) - 1 < q)
    (h2 : q ≤ n) : truncToInt q = n := by
  unfold truncToInt
  rw [if_neg (not_le.mpr h0)]
  exact Int.ceil_eq_iff.mpr ⟨h1, h2⟩

/-- A value of at least one converts to an integer of at least one. -/
theorem one_le_truncToInt (q : ℚ) (h : 1 ≤ q) : 1 ≤ truncToInt q := by
  unfold truncToInt
  rw [if_pos (by linarith)]
  exact Int.le_floor.mpr (by exact_mod_cast h)

/-- The conversion to `int` does not increase the magnitude: a value of magnitude at most
`n` converts to an integer between `-n` and `n`. -/
theorem abs_truncToInt_le (q : ℚ) (n : Int) (hn : 0 ≤ n) (h : |q| ≤ (n : ℚ)) :
    -n ≤ truncToInt q ∧ truncToInt q ≤ n := by
  obtain ⟨h1, h2⟩ := abs_le.mp h
  unfold truncToInt
  split_ifs with h0
  · constructor
    · have : (0 : Int) ≤ ⌊q⌋ := Int.floor_nonneg.mpr h0
      omega
    · exact Int.cast_le.mp ((Int.floor_le q).trans h2)
  · push_neg at h0
    constructor
    · have : ((-n : Int) : ℚ) ≤ q := by push_cast; exact h1
      exact Int.cast_le.mp (this.trans (Int.le_ceil q))
    · have : ⌈q⌉ ≤ 0 := Int.ceil_le.mpr (by exact_mod_cast h0.le)
      omega

/-- The mean over a non-empty rectangle inside the image, from the sum of its pixels. -/
theorem roiMean_eval (m : Mat) (r : Rect) (s : Nat) (hin : r.inside m)
    (hne : r.width * r.height ≠ 0) (hs : rectSum m r = s) :
    roiMean m r = some ((s : ℚ) / ((r.width * r.height : Int) : ℚ)) := by
  simp only [roiMean, if_pos hin, if_neg hne, hs]

/-- The boundary check of `lightBox`, once the four conversions of the scaling are known. -/
theorem lightBox_eval (light : Light) (gray_img : Mat) (x y w h : Int)
    (hx : truncToInt ((light.x : ℚ) - (light.width : ℚ) * SCALE) = x)
    (hy : truncToInt ((light.y : ℚ) - (light.height : ℚ) * SCALE) = y)
    (hw : truncToInt ((light.width : ℚ) + (light.width : ℚ) * SCALE * 2) = w)
    (hh : truncToInt ((light.height : ℚ) + (light.height : ℚ) * SCALE * 2) = h) :
    lightBox light gray_img =
      { x := min (max x 0) ((gray_img.cols : Int) - 1),
        y := min (max y 0) ((gray_img.rows : Int) - 1),
        width := min w ((gray_img.cols : Int) - min (max x 0) ((gray_img.cols : Int) - 1)),
        height := min h ((gray_img.rows : Int) - min (max y 0) ((gray_img.rows : Int) - 1)) } := by
  simp only [lightBox, hx, hy, hw, hh]

/-- For a light bar inside the image, at most 7 pixels wide and not touching the left
border, the scaling moves the origin one pixel left and leaves the width unchanged:
the sampled rectangle ends one column before the light bar does. -/
theorem lightBox_narrow_right_edge (light : Light) (gray_img : Mat)
    (hin : light.inside gray_img) (hx : 1 ≤ light.x)
    (hw : 1 ≤ light.width) (hw7 : light.width ≤ 7) :
    (lightBox light gray_img).x + (lightBox light gray_img).width =
      light.x + light.width - 1 := by
  have hxq : (1 : ℚ) ≤ light.x := by exact_mod_cast hx
  have hwq : (1 : ℚ) ≤ light.width := by exact_mod_cast hw
  have hwq7 : (light.width : ℚ) ≤ 7 := by exact_mod_cast hw7
  have e1 : truncToInt ((light.x : ℚ) - (light.width : ℚ) * SCALE) = light.x - 1 := by
    apply truncToInt_eq <;> simp only [SCALE] <;> push_cast <;> norm_num <;> linarith
  have e2 : truncToInt ((light.width : ℚ) + (light.width : ℚ) * SCALE * 2) = light.width := by
    apply truncToInt_eq <;> simp only [SCALE] <;> norm_num <;> linarith
  obtain ⟨h1, h2, h3, -, -, -⟩ := hin
  simp only [lightBox, e1, e2]
  omega

/-! ## Auxiliary lemmas: the metering grid -/

/-- Every patch of the grid satisfies the precondition of `cv::Mat::operator()`. -/
theorem patchRoi_inside (gray_img : Mat) (i j : Fin 3) :
    (patchRoi gray_img i j).inside gray_img := by
  obtain ⟨i, hi⟩ := i
  obtain ⟨j, hj⟩ := j
  simp only [patchRoi, Rect.inside]
  have := Nat.div_mul_le_self gray_img.cols 3
  have := Nat.div_mul_le_self gray_img.rows 3
  refine ⟨by positivity, by positivity, ?_, by positivity, by positivity, ?_⟩
  · have h : ((j : Int) + 1) * ((gray_img.cols / 3 : Nat) : Int) ≤
        3 * ((gray_img.cols / 3 : Nat) : Int) :=
      mul_le_mul_of_nonneg_right (by omega) (by positivity)
    have : (3 : Int) * ((gray_img.cols / 3 : Nat) : Int) ≤ gray_img.cols := by omega
    linarith
  · have h : ((i : Int) + 1) * ((gray_img.rows / 3 : Nat) : Int) ≤
        3 * ((gray_img.rows / 3 : Nat) : Int) :=
      mul_le_mul_of_nonneg_right (by omega) (by positivity)
    have : (3 : Int) * ((gray_img.rows / 3 : Nat) : Int) ≤ gray_img.rows := by omega
    linarith

/-- Reading the mean of a patch of the grid never throws. -/
theorem roiMean_patch (gray_img : Mat) (i j : Fin 3) :
    roiMean gray_img (patchRoi gray_img i j) = some (patchMean gray_img i j) := by
  have h := patchRoi_inside gray_img i j
  simp only [patchMean, roiMean, if_pos h, Option.getD_some]

/-- The grid loop unrolled: the nine weighted patch means, whatever the initial content
of the uninitialised local. -/
theorem globalBrightness_eq (gray_img : Mat) (uninit : ℚ) :
    globalBrightness gray_img uninit = some
      (0.05 * patchMean gray_img 0 0 + 0.1 * patchMean gray_img 0 1 +
        0.05 * patchMean gray_img 0 2 + 0.1 * patchMean gray_img 1 0 +
        0.4 * patchMean gray_img 1 1 + 0.1 * patchMean gray_img 1 2 +
        0.05 * patchMean gray_img 2 0 + 0.1 * patchMean gray_img 2 1 +
        0.05 * patchMean gray_img 2 2) := by
  have h00 := roiMean_patch gray_img 0 0
  have h01 := roiMean_patch gray_img 0 1
  have h02 := roiMean_patch gray_img 0 2
  have h10 := roiMean_patch gray_img 1 0
  have h11 := roiMean_patch gray_img 1 1
  have h12 := roiMean_patch gray_img 1 2
  have h20 := roiMean_patch gray_img 2 0
  have h21 := roiMean_patch gray_img 2 1
  have h22 := roiMean_patch gray_img 2 2
  simp only [Fin.isValue, Fin.val_zero, Fin.val_one, Fin.val_two]
    at h00 h01 h02 h10 h11 h12 h20 h21 h22
  have hr : List.range 3 = [0, 1, 2] := rfl
  simp [globalBrightness, hr, gridBody, h00, h01, h02, h10, h11, h12, h20, h21, h22]

/-- The pixel sum of a rectangle all of whose pixels are `v`. -/
theorem rectSum_uniform (m : Mat) (r : Rect) (v : Nat)
    (h : ∀ dy < r.height.toNat, ∀ dx < r.width.toNat,
      m.pix (r.y.toNat + dy) (r.x.toNat + dx) = v) :
    rectSum m r = r.height.toNat * (r.width.toNat * v) := by
  unfold rectSum
  have inner : ∀ dy ∈ List.range r.height.toNat,
      ((List.range r.width.toNat).map fun dx =>
        m.pix (r.y.toNat + dy) (r.x.toNat + dx)).sum = r.width.toNat * v := by
    intro dy hdy
    have hdy' := List.mem_range.mp hdy
    have : ((List.range r.width.toNat).map fun dx =>
        m.pix (r.y.toNat + dy) (r.x.toNat + dx)) =
        (List.range r.width.toNat).map fun _ => v := by
      apply List.map_congr_left
      intro dx hdx
      exact h dy hdy' dx (List.mem_range.mp hdx)
    rw [this]
    simp
  rw [List.map_congr_left inner]
  simp

/-- Along one axis, a coordinate lies in at most one of the three patches of size `pw`. -/
theorem patch_col_unique (pw : Nat) (col : Nat) (j j' : Fin 3)
    (h1 : ((j : Nat) : Int) * (pw : Int) ≤ col) (h2 : (col : Int) < ((j : Nat) : Int) * pw + pw)
    (h3 : ((j' : Nat) : Int) * (pw : Int) ≤ col)
    (h4 : (col : Int) < ((j' : Nat) : Int) * pw + pw) : j = j' := by
  fin_cases j <;> fin_cases j' <;> simp at h1 h2 h3 h4 ⊢ <;> omega

/-- Along one axis, the three patches of size `pw` contain exactly the coordinates
below `3 * pw`. -/
theorem patch_col_cover (pw : Nat) (col : Nat) :
    (∃ j : Fin 3, ((j : Nat) : Int) * (pw : Int) ≤ col ∧
      (col : Int) < ((j : Nat) : Int) * pw + pw) ↔ col < 3 * pw := by
  constructor
  · rintro ⟨j, h1, h2⟩
    fin_cases j <;> simp at h1 h2 <;> omega
  · intro h
    by_cases h0 : col < pw
    · exact ⟨0, by simp, by simp; omega⟩
    · by_cases h1 : col < 2 * pw
      · exact ⟨1, by simp; omega, by simp; omega⟩
      · exact ⟨2, by simp; omega, by simp; omega⟩

/-! ## Auxiliary lemmas: evaluation on the test images -/

/-- The rectangle sampled for the light bar `(5, 2, 4, 20)` of the bar image. -/
theorem lightBox_narrow : lightBox ⟨5, 2, 4, 20⟩ barMat = ⟨4, 0, 4, 22⟩ := by
  rw [lightBox_eval _ _ 4 0 4 22
    (truncToInt_eq _ _ (by norm_num [SCALE]) (by norm_num [SCALE]) (by norm_num [SCALE]))
    (truncToInt_eq _ _ (by norm_num [SCALE]) (by norm_num [SCALE]) (by norm_num [SCALE]))
    (truncToInt_eq _ _ (by norm_num [SCALE]) (by norm_num [SCALE]) (by norm_num [SCALE]))
    (truncToInt_eq _ _ (by norm_num [SCALE]) (by norm_num [SCALE]) (by norm_num [SCALE]))]
  decide

/-- The rectangle sampled for a light bar lying entirely outside the image. -/
theorem lightBox_far : lightBox ⟨50, -50, 3, 3⟩ rampMat = ⟨9, 0, 1, 3⟩ := by
  rw [lightBox_eval _ _ 49 (-50) 3 3
    (truncToInt_eq _ _ (by norm_num [SCALE]) (by norm_num [SCALE]) (by norm_num [SCALE]))
    (truncToInt_eq_neg _ _ (by norm_num [SCALE]) (by norm_num [SCALE]) (by norm_num [SCALE]))
    (truncToInt_eq _ _ (by norm_num [SCALE]) (by norm_num [SCALE]) (by norm_num [SCALE]))
    (truncToInt_eq _ _ (by norm_num [SCALE]) (by norm_num [SCALE]) (by norm_num [SCALE]))]
  decide

/-- The rectangle sampled for the light bar `(1, 1, 2, 5)`. -/
theorem lightBox_near : lightBox ⟨1, 1, 2, 5⟩ rampMat = ⟨0, 0, 2, 5⟩ := by
  rw [lightBox_eval _ _ 0 0 2 5
    (truncToInt_eq _ _ (by norm_num [SCALE]) (by norm_num [SCALE]) (by norm_num [SCALE]))
    (truncToInt_eq _ _ (by norm_num [SCALE]) (by norm_num [SCALE]) (by norm_num [SCALE]))
    (truncToInt_eq _ _ (by norm_num [SCALE]) (by norm_num [SCALE]) (by norm_num [SCALE]))
    (truncToInt_eq _ _ (by norm_num [SCALE]) (by norm_num [SCALE]) (by norm_num [SCALE]))]
  decide

/-- The brightness sampled for the light bar `(5, 2, 4, 20)` of the bar image. -/
theorem getLight_narrow :
    getLightMeanBrightness ⟨5, 2, 4, 20⟩ barMat = some (305 / 2) := by
  unfold getLightMeanBrightness
  rw [lightBox_narrow, roiMean_eval _ _ 13420 (by decide) (by decide) (by decide)]
  norm_num

/-- The brightness sampled for a light bar lying entirely outside the image. -/
theorem getLight_far : getLightMeanBrightness ⟨50, -50, 3, 3⟩ rampMat = some 19 := by
  unfold getLightMeanBrightness
  rw [lightBox_far, roiMean_eval _ _ 57 (by decide) (by decide) (by decide)]
  norm_num

/-- The brightness sampled for the light bar `(1, 1, 2, 5)`. -/
theorem getLight_near : getLightMeanBrightness ⟨1, 1, 2, 5⟩ rampMat = some (41 / 2) := by
  unfold getLightMeanBrightness
  rw [lightBox_near, roiMean_eval _ _ 205 (by decide) (by decide) (by decide)]
  norm_num

/-- The brightness of an armor whose left light bar lies entirely outside the image. -/
theorem getArmorROI_far :
    getArmorROI ⟨⟨50, -50, 3, 3⟩, ⟨1, 1, 2, 5⟩⟩ rampMat = some (79 / 4) := by
  simp only [getArmorROI, getLight_far, getLight_near]
  norm_num

/-- The grid brightness of the 10 by 10 test image. -/
theorem globalBrightness_ramp (uninit : ℚ) : globalBrightness rampMat uninit = some 44 := by
  have e : ∀ (i j : Fin 3) (s : Nat), rectSum rampMat (patchRoi rampMat i j) = s →
      patchMean rampMat i j = (s : ℚ) / 9 := by
    intro i j s hs
    have h9 : ∀ i j : Fin 3,
        (patchRoi rampMat i j).width * (patchRoi rampMat i j).height = 9 := by decide
    unfold patchMean
    rw [roiMean_eval _ _ s (patchRoi_inside rampMat i j) (by rw [h9]; decide) hs, h9]
    norm_num
  have h00 := e 0 0 99 (by decide)
  have h01 := e 0 1 126 (by decide)
  have h02 := e 0 2 153 (by decide)
  have h10 := e 1 0 369 (by decide)
  have h11 := e 1 1 396 (by decide)
  have h12 := e 1 2 423 (by decide)
  have h20 := e 2 0 639 (by decide)
  have h21 := e 2 1 666 (by decide)
  have h22 := e 2 2 693 (by decide)
  simp only [Fin.isValue, Fin.val_zero, Fin.val_one, Fin.val_two]
    at h00 h01 h02 h10 h11 h12 h20 h21 h22
  rw [globalBrightness_eq, h00, h01, h02, h10, h11, h12, h20, h21, h22]
  norm_num

/-! ## Auxiliary lemmas: rounding to the nearest integer -/

/-- A number within less than one half of the integer `m` rounds to `m`. -/
theorem roundNE_eq_of (x : ℚ) (m : Int) (h : |x - m| < 1 / 2) : roundNE x = m := by
  rw [abs_lt] at h
  obtain ⟨h1, h2⟩ := h
  unfold roundNE
  by_cases hc : (m : ℚ) ≤ x
  · have hf : ⌊x⌋ = m := Int.floor_eq_iff.mpr ⟨hc, by linarith⟩
    rw [hf, if_pos (by linarith)]
  · push_neg at hc
    have hf : ⌊x⌋ = m - 1 :=
      Int.floor_eq_iff.mpr ⟨by push_cast; linarith, by push_cast; linarith⟩
    rw [hf]
    push_cast
    rw [if_neg (by linarith), if_pos (by linarith)]
    ring

/-- An integer rounds to itself. -/
theorem roundNE_intCast (m : Int) : roundNE (m : ℚ) = m :=
  roundNE_eq_of _ m (by simp)

/-- A number halfway between two integers rounds to the even one. -/
theorem roundNE_tie (x : ℚ) (m : Int) (heven : m % 2 = 0) (h : |x - m| = 1 / 2) :
    roundNE x = m := by
  rcases abs_eq (by norm_num : (0 : ℚ) ≤ 1 / 2) |>.mp h with h1 | h1
  · have hf : ⌊x⌋ = m := Int.floor_eq_iff.mpr ⟨by linarith, by linarith⟩
    unfold roundNE
    rw [hf, if_neg (by linarith), if_neg (by linarith), if_pos heven]
  · have hf : ⌊x⌋ = m - 1 :=
      Int.floor_eq_iff.mpr ⟨by push_cast; linarith, by push_cast; linarith⟩
    unfold roundNE
    rw [hf]
    push_cast
    rw [if_neg (by linarith), if_neg (by linarith), if_neg (by omega)]
    ring

/-- Rounding to the nearest integer moves a number by at most one half. -/
theorem abs_roundNE_sub_le (x : ℚ) : |(roundNE x : ℚ) - x| ≤ 1 / 2 := by
  have h1 := Int.floor_le x
  have h2 := Int.lt_floor_add_one x
  unfold roundNE
  rw [abs_le]
  split_ifs with a b c <;> push_cast <;> constructor <;> linarith

/-- Rounding to the nearest integer does not cross an integer below the number. -/
theorem le_roundNE (x : ℚ) (n : Int) (h : (n : ℚ) ≤ x) : n ≤ roundNE x := by
  have hf : n ≤ ⌊x⌋ := Int.le_floor.mpr h
  unfold roundNE
  split_ifs <;> omega

/-- Rounding to the nearest integer does not cross an integer above the number. -/
theorem roundNE_le (x : ℚ) (n : Int) (h : x ≤ (n : ℚ)) : roundNE x ≤ n := by
  have hf : ⌊x⌋ ≤ n := Int.cast_le.mp ((Int.floor_le x).trans h)
  by_cases hx : x - ⌊x⌋ < 1 / 2
  · unfold roundNE; rw [if_pos hx]; exact hf
  · have hlt : (⌊x⌋ : ℚ) < n := by
      have := Int.floor_le x
      push_neg at hx
      linarith
    have : ⌊x⌋ + 1 ≤ n := by exact_mod_cast Int.add_one_le_iff.mpr (by exact_mod_cast hlt)
    unfold roundNE
    split_ifs <;> omega

/-! ## Auxiliary lemmas: rounding to a binary format -/

/-- The binade of `q`: `Int.log 2 |q| = L` when `2^L ≤ |q| < 2^(L+1)`. -/
theorem log2_eq (q : ℚ) (L : Int) (h1 : (2 : ℚ) ^ L ≤ |q|) (h2 : |q| < (2 : ℚ) ^ (L + 1)) :
    Int.log 2 |q| = L := by
  have hpos : 0 < |q| := lt_of_lt_of_le (by positivity) h1
  have a : L ≤ Int.log 2 |q| :=
    (Int.zpow_le_iff_le_log (by norm_num) hpos).mp (by exact_mod_cast h1)
  have b : Int.log 2 |q| < L + 1 :=
    (Int.lt_zpow_iff_log_lt (by norm_num) hpos).mp (by exact_mod_cast h2)
  omega

/-- A non-zero number is at least the power of two of its binade. -/
theorem two_zpow_log_le (q : ℚ) (hq : q ≠ 0) : (2 : ℚ) ^ Int.log 2 |q| ≤ |q| := by
  have := Int.zpow_log_le_self (b := 2) (r := |q|) (by norm_num) (abs_pos.mpr hq)
  exact_mod_cast this

/-- A non-negative power of two is an integer. -/
theorem two_zpow_eq_natCast (d : Int) (hd : 0 ≤ d) :
    (2 : ℚ) ^ d = (((2 : Int) ^ d.toNat : Int) : ℚ) := by
  obtain ⟨n, rfl⟩ := Int.eq_ofNat_of_zero_le hd
  simp

/-- Certificate of one rounding, no tie: with `L` the binade of `q`, `e` the exponent of
its unit in the last place and `m` the integer within less than one half of `q / 2^e`,
the rounded value is `m * 2^e`. -/
theorem Format.round_eq (f : Format) (q : ℚ) (L e m : Int)
    (h1 : (2 : ℚ) ^ L ≤ |q|) (h2 : |q| < (2 : ℚ) ^ (L + 1))
    (he : e = max (L - ((f.prec : Int) - 1)) (2 - f.emax - (f.prec : Int)))
    (hm : |q / (2 : ℚ) ^ e - m| < 1 / 2)
    (hov : |(m : ℚ) * (2 : ℚ) ^ e| < (2 : ℚ) ^ (f.emax + 1)) :
    f.round q = Fp.fin ((m : ℚ) * (2 : ℚ) ^ e) := by
  have hq : q ≠ 0 := by
    intro h0
    rw [h0] at h1
    have : (0 : ℚ) < (2 : ℚ) ^ L := by positivity
    simp at h1
    linarith
  have hu : f.ulpExp q = e := by
    unfold Format.ulpExp
    rw [log2_eq q L h1 h2, he]
  have hr : f.roundRaw q = (m : ℚ) * (2 : ℚ) ^ e := by
    unfold Format.roundRaw
    rw [hu, roundNE_eq_of _ m hm]
  unfold Format.round
  rw [if_neg hq, hr, if_neg (not_le.mpr hov)]

/-- The certificate `Format.round_eq` with the rounded value given as a number `r`. -/
theorem Format.round_cert (f : Format) (q r : ℚ) (L e m : Int)
    (h1 : (2 : ℚ) ^ L ≤ |q|) (h2 : |q| < (2 : ℚ) ^ (L + 1))
    (he : e = max (L - ((f.prec : Int) - 1)) (2 - f.emax - (f.prec : Int)))
    (hm : |q / (2 : ℚ) ^ e - m| < 1 / 2)
    (hov : |(m : ℚ) * (2 : ℚ) ^ e| < (2 : ℚ) ^ (f.emax + 1))
    (hr : r = (m : ℚ) * (2 : ℚ) ^ e) : f.round q = Fp.fin r := by
  rw [hr]
  exact f.round_eq q L e m h1 h2 he hm hov

/-- Certificate of one rounding in the case of a tie: `q / 2^e` is halfway between two
integers and `m` is the even one. -/
theorem Format.round_cert_tie (f : Format) (q r : ℚ) (L e m : Int)
    (h1 : (2 : ℚ) ^ L ≤ |q|) (h2 : |q| < (2 : ℚ) ^ (L + 1))
    (he : e = max (L - ((f.prec : Int) - 1)) (2 - f.emax - (f.prec : Int)))
    (hm : |q / (2 : ℚ) ^ e - m| = 1 / 2) (heven : m % 2 = 0)
    (hov : |(m : ℚ) * (2 : ℚ) ^ e| < (2 : ℚ) ^ (f.emax + 1))
    (hr : r = (m : ℚ) * (2 : ℚ) ^ e) : f.round q = Fp.fin r := by
  have hq : q ≠ 0 := by
    intro h0
    rw [h0] at h1
    have : (0 : ℚ) < (2 : ℚ) ^ L := by positivity
    simp at h1
    linarith
  have hu : f.ulpExp q = e := by
    unfold Format.ulpExp
    rw [log2_eq q L h1 h2, he]
  have hraw : f.roundRaw q = (m : ℚ) * (2 : ℚ) ^ e := by
    unfold Format.roundRaw
    rw [hu, roundNE_tie _ m heven hm]
  unfold Format.round
  rw [if_neg hq, hraw, if_neg (not_le.mpr hov), hr]

/-- Rounding does not go below a power of two on the grid of `q` that `q` reaches. -/
theorem Format.roundRaw_ge (f : Format) (q : ℚ) (g : Int) (hg : f.ulpExp q ≤ g)
    (hq : (2 : ℚ) ^ g ≤ q) : (2 : ℚ) ^ g ≤ f.roundRaw q := by
  have hpos : (0 : ℚ) < (2 : ℚ) ^ f.ulpExp q := by positivity
  have hsplit : (2 : ℚ) ^ g = (2 : ℚ) ^ (g - f.ulpExp q) * (2 : ℚ) ^ f.ulpExp q := by
    rw [← zpow_add₀ (by norm_num)]; congr 1; ring
  have hN := two_zpow_eq_natCast (g - f.ulpExp q) (by omega)
  have hx : ((((2 : Int) ^ (g - f.ulpExp q).toNat : Int)) : ℚ) ≤
      q / (2 : ℚ) ^ f.ulpExp q := by
    rw [← hN, le_div_iff₀ hpos, ← hsplit]; exact hq
  have hm := le_roundNE _ _ hx
  have hm' : (2 : ℚ) ^ (g - f.ulpExp q) ≤ (roundNE (q / (2 : ℚ) ^ f.ulpExp q) : ℚ) := by
    rw [hN]; exact_mod_cast hm
  unfold Format.roundRaw
  rw [hsplit]
  exact mul_le_mul_of_nonneg_right hm' hpos.le

/-- Rounding does not go above a power of two on the grid of `q` that bounds `q`. -/
theorem Format.roundRaw_le (f : Format) (q : ℚ) (g : Int) (hg : f.ulpExp q ≤ g)
    (hq : q ≤ (2 : ℚ) ^ g) : f.roundRaw q ≤ (2 : ℚ) ^ g := by
  have hpos : (0 : ℚ) < (2 : ℚ) ^ f.ulpExp q := by positivity
  have hsplit : (2 : ℚ) ^ g = (2 : ℚ) ^ (g - f.ulpExp q) * (2 : ℚ) ^ f.ulpExp q := by
    rw [← zpow_add₀ (by norm_num)]; congr 1; ring
  have hN := two_zpow_eq_natCast (g - f.ulpExp q) (by omega)
  have hx : q / (2 : ℚ) ^ f.ulpExp q ≤
      ((((2 : Int) ^ (g - f.ulpExp q).toNat : Int)) : ℚ) := by
    rw [← hN, div_le_iff₀ hpos, ← hsplit]; exact hq
  have hm := roundNE_le _ _ hx
  have hm' : (roundNE (q / (2 : ℚ) ^ f.ulpExp q) : ℚ) ≤ (2 : ℚ) ^ (g - f.ulpExp q) := by
    rw [hN]; exact_mod_cast hm
  unfold Format.roundRaw
  rw [hsplit]
  exact mul_le_mul_of_nonneg_right hm' hpos.le

/-- Rounding does not go above the opposite of a power of two on the grid of `q` that
bounds `q`. -/
theorem Format.roundRaw_le_neg (f : Format) (q : ℚ) (g : Int) (hg : f.ulpExp q ≤ g)
    (hq : q ≤ -(2 : ℚ) ^ g) : f.roundRaw q ≤ -(2 : ℚ) ^ g := by
  have hpos : (0 : ℚ) < (2 : ℚ) ^ f.ulpExp q := by positivity
  have hsplit : (2 : ℚ) ^ g = (2 : ℚ) ^ (g - f.ulpExp q) * (2 : ℚ) ^ f.ulpExp q := by
    rw [← zpow_add₀ (by norm_num)]; congr 1; ring
  have hN := two_zpow_eq_natCast (g - f.ulpExp q) (by omega)
  have hcast : (((-(2 : Int) ^ (g - f.ulpExp q).toNat : Int)) : ℚ) =
      -(2 : ℚ) ^ (g - f.ulpExp q) := by
    rw [hN]; push_cast; ring
  have hx : q / (2 : ℚ) ^ f.ulpExp q ≤
      (((-(2 : Int) ^ (g - f.ulpExp q).toNat : Int)) : ℚ) := by
    rw [hcast, div_le_iff₀ hpos, neg_mul, ← hsplit]; exact hq
  have hm := roundNE_le _ _ hx
  have hm' : (roundNE (q / (2 : ℚ) ^ f.ulpExp q) : ℚ) ≤ -(2 : ℚ) ^ (g - f.ulpExp q) := by
    rw [← hcast]; exact_mod_cast hm
  unfold Format.roundRaw
  rw [hsplit, ← neg_mul]
  exact mul_le_mul_of_nonneg_right hm' hpos.le

/-- Rounding does not go below the opposite of a power of two on the grid of `q` that `q`
reaches. -/
theorem Format.roundRaw_ge_neg (f : Format) (q : ℚ) (g : Int) (hg : f.ulpExp q ≤ g)
    (hq : -(2 : ℚ) ^ g ≤ q) : -(2 : ℚ) ^ g ≤ f.roundRaw q := by
  have hpos : (0 : ℚ) < (2 : ℚ) ^ f.ulpExp q := by positivity
  have hsplit : (2 : ℚ) ^ g = (2 : ℚ) ^ (g - f.ulpExp q) * (2 : ℚ) ^ f.ulpExp q := by
    rw [← zpow_add₀ (by norm_num)]; congr 1; ring
  have hN := two_zpow_eq_natCast (g - f.ulpExp q) (by omega)
  have hcast : (((-(2 : Int) ^ (g - f.ulpExp q).toNat : Int)) : ℚ) =
      -(2 : ℚ) ^ (g - f.ulpExp q) := by
    rw [hN]; push_cast; ring
  have hx : (((-(2 : Int) ^ (g - f.ulpExp q).toNat : Int)) : ℚ) ≤
      q / (2 : ℚ) ^ f.ulpExp q := by
    rw [hcast, le_div_iff₀ hpos, neg_mul, ← hsplit]; exact hq
  have hm := le_roundNE _ _ hx
  have hm' : -(2 : ℚ) ^ (g - f.ulpExp q) ≤ (roundNE (q / (2 : ℚ) ^ f.ulpExp q) : ℚ) := by
    rw [← hcast]; exact_mod_cast hm
  unfold Format.roundRaw
  rw [hsplit, ← neg_mul]
  exact mul_le_mul_of_nonneg_right hm' hpos.le

/-- Rounding keeps a non-negative number non-negative. -/
theorem Format.roundRaw_nonneg (f : Format) (q : ℚ) (hq : 0 ≤ q) : 0 ≤ f.roundRaw q := by
  have hpos : (0 : ℚ) < (2 : ℚ) ^ f.ulpExp q := by positivity
  have hm := le_roundNE (q / (2 : ℚ) ^ f.ulpExp q) 0 (by simpa using div_nonneg hq hpos.le)
  unfold Format.roundRaw
  exact mul_nonneg (by exact_mod_cast hm) hpos.le

/-- Rounding keeps a non-positive number non-positive. -/
theorem Format.roundRaw_nonpos (f : Format) (q : ℚ) (hq : q ≤ 0) : f.roundRaw q ≤ 0 := by
  have hpos : (0 : ℚ) < (2 : ℚ) ^ f.ulpExp q := by positivity
  have hm := roundNE_le (q / (2 : ℚ) ^ f.ulpExp q) 0
    (by simpa using div_nonpos_of_nonpos_of_nonneg hq hpos.le)
  unfold Format.roundRaw
  exact mul_nonpos_of_nonpos_of_nonneg (by exact_mod_cast hm) hpos.le

/-- The unit in the last place of a number of magnitude at most `2^j` is at most `2^j`. -/
theorem Format.ulpExp_le (f : Format) (q : ℚ) (j : Int) (hq0 : q ≠ 0)
    (hp : 1 ≤ f.prec) (hj : 2 - f.emax - (f.prec : Int) ≤ j) (hq : |q| ≤ (2 : ℚ) ^ j) :
    f.ulpExp q ≤ j := by
  have hL : Int.log 2 |q| ≤ j := by
    have h := (two_zpow_log_le q hq0).trans hq
    exact (zpow_le_zpow_iff_right₀ (by norm_num : (1 : ℚ) < 2)).mp h
  unfold Format.ulpExp
  have : (1 : Int) ≤ f.prec := by exact_mod_cast hp
  omega

/-- Below a number of magnitude at least `2^k` there is a power of two, at least `2^k`,
that lies on the grid of that number. -/
theorem Format.exists_grid_le (f : Format) (q : ℚ) (k : Int) (hq0 : q ≠ 0)
    (hp : 1 ≤ f.prec) (hk : 2 - f.emax - (f.prec : Int) ≤ k) (hq : (2 : ℚ) ^ k ≤ |q|) :
    ∃ g : Int, f.ulpExp q ≤ g ∧ k ≤ g ∧ (2 : ℚ) ^ g ≤ |q| := by
  have hL : k ≤ Int.log 2 |q| :=
    (Int.zpow_le_iff_le_log (by norm_num) (abs_pos.mpr hq0)).mp (by exact_mod_cast hq)
  have : (1 : Int) ≤ f.prec := by exact_mod_cast hp
  by_cases hc : f.ulpExp q ≤ k
  · exact ⟨k, hc, le_refl _, hq⟩
  · refine ⟨Int.log 2 |q|, ?_, hL, two_zpow_log_le q hq0⟩
    unfold Format.ulpExp at hc ⊢
    omega

/-- Zero rounds to zero. -/
theorem Format.roundRaw_zero (f : Format) : f.roundRaw 0 = 0 := by
  unfold Format.roundRaw
  have : roundNE ((0 : ℚ) / (2 : ℚ) ^ f.ulpExp 0) = 0 := by
    rw [zero_div]; exact_mod_cast roundNE_intCast 0
  rw [this]; simp

/-- A number of magnitude at most `2^j`, with `j` at most `emax`, rounds to a finite value
of magnitude at most `2^j`. -/
theorem Format.round_of_abs_le (f : Format) (q : ℚ) (j : Int) (hp : 1 ≤ f.prec)
    (hj1 : 2 - f.emax - (f.prec : Int) ≤ j) (hj2 : j ≤ f.emax) (hq : |q| ≤ (2 : ℚ) ^ j) :
    f.round q = Fp.fin (f.roundRaw q) ∧ |f.roundRaw q| ≤ (2 : ℚ) ^ j := by
  by_cases hq0 : q = 0
  · subst hq0
    refine ⟨by simp [Format.round, Format.roundRaw_zero], ?_⟩
    rw [Format.roundRaw_zero, abs_zero]; positivity
  · have he := f.ulpExp_le q j hq0 hp hj1 hq
    obtain ⟨h1, h2⟩ := abs_le.mp hq
    have hb : |f.roundRaw q| ≤ (2 : ℚ) ^ j :=
      abs_le.mpr ⟨f.roundRaw_ge_neg q j he h1, f.roundRaw_le q j he h2⟩
    refine ⟨?_, hb⟩
    have hlt : (2 : ℚ) ^ j < (2 : ℚ) ^ (f.emax + 1) :=
      (zpow_lt_zpow_iff_right₀ (by norm_num : (1 : ℚ) < 2)).mpr (by omega)
    unfold Format.round
    rw [if_neg hq0, if_neg (not_le.mpr (lt_of_le_of_lt hb hlt))]

/-- A number of at least `2^(emax+1)` rounds to `+∞`. -/
theorem Format.round_pinf (f : Format) (q : ℚ) (hp : 1 ≤ f.prec) (he : 0 ≤ f.emax)
    (hq : (2 : ℚ) ^ (f.emax + 1) ≤ q) : f.round q = Fp.pinf := by
  have hpos : 0 < q := lt_of_lt_of_le (by positivity) hq
  have hq0 : q ≠ 0 := hpos.ne'
  have hp' : (1 : Int) ≤ f.prec := by exact_mod_cast hp
  obtain ⟨g, hg1, hg2, hg3⟩ := f.exists_grid_le q (f.emax + 1) hq0 hp (by omega)
    (by rw [abs_of_pos hpos]; exact hq)
  rw [abs_of_pos hpos] at hg3
  have hr := f.roundRaw_ge q g hg1 hg3
  have hgk : (2 : ℚ) ^ (f.emax + 1) ≤ (2 : ℚ) ^ g := zpow_le_zpow_right₀ (by norm_num) hg2
  have : (2 : ℚ) ^ (f.emax + 1) ≤ |f.roundRaw q| := (hgk.trans hr).trans (le_abs_self _)
  unfold Format.round
  rw [if_neg hq0, if_pos this, if_pos hpos]

/-- A number of at most `-2^(emax+1)` rounds to `-∞`. -/
theorem Format.round_ninf (f : Format) (q : ℚ) (hp : 1 ≤ f.prec) (he : 0 ≤ f.emax)
    (hq : q ≤ -(2 : ℚ) ^ (f.emax + 1)) : f.round q = Fp.ninf := by
  have hneg : q < 0 := lt_of_le_of_lt hq (by simp; positivity)
  have hq0 : q ≠ 0 := hneg.ne
  have hp' : (1 : Int) ≤ f.prec := by exact_mod_cast hp
  obtain ⟨g, hg1, hg2, hg3⟩ := f.exists_grid_le q (f.emax + 1) hq0 hp (by omega)
    (by rw [abs_of_neg hneg]; linarith)
  rw [abs_of_neg hneg] at hg3
  have hr := f.roundRaw_le_neg q g hg1 (by linarith)
  have hgk : (2 : ℚ) ^ (f.emax + 1) ≤ (2 : ℚ) ^ g := zpow_le_zpow_right₀ (by norm_num) hg2
  have : (2 : ℚ) ^ (f.emax + 1) ≤ |f.roundRaw q| := by
    have : f.roundRaw q ≤ 0 := by
      have : (0 : ℚ) < (2 : ℚ) ^ g := by positivity
      linarith
    rw [abs_of_nonpos this]; linarith
  unfold Format.round
  rw [if_neg hq0, if_pos this, if_neg (not_lt.mpr hneg.le)]

/-- Rounding keeps a number of at least `2^k` at least `2^k`. -/
theorem Format.roundRaw_ge_of_ge (f : Format) (q : ℚ) (k : Int) (hp : 1 ≤ f.prec)
    (hk : 2 - f.emax - (f.prec : Int) ≤ k) (hq : (2 : ℚ) ^ k ≤ q) :
    (2 : ℚ) ^ k ≤ f.roundRaw q := by
  have hpos : 0 < q := lt_of_lt_of_le (by positivity) hq
  obtain ⟨g, hg1, hg2, hg3⟩ := f.exists_grid_le q k hpos.ne' hp hk
    (by rw [abs_of_pos hpos]; exact hq)
  rw [abs_of_pos hpos] at hg3
  exact (zpow_le_zpow_right₀ (by norm_num) hg2).trans (f.roundRaw_ge q g hg1 hg3)

/-- An integer of magnitude at most `2^prec` is represented exactly. -/
theorem Format.round_intCast (f : Format) (n : Int) (hp : 1 ≤ f.prec)
    (hpe : (f.prec : Int) ≤ f.emax) (h0 : 2 - f.emax - (f.prec : Int) ≤ 0)
    (hn : |(n : ℚ)| ≤ (2 : ℚ) ^ (f.prec : Int)) : f.round (n : ℚ) = Fp.fin (n : ℚ) := by
  by_cases hn0 : (n : ℚ) = 0
  · rw [hn0]; simp [Format.round]
  · obtain ⟨hr, -⟩ := f.round_of_abs_le (n : ℚ) (f.prec : Int) hp (by omega) hpe hn
    rw [hr]
    congr 1
    have hL : Int.log 2 |(n : ℚ)| ≤ (f.prec : Int) :=
      (zpow_le_zpow_iff_right₀ (by norm_num : (1 : ℚ) < 2)).mp
        ((two_zpow_log_le _ hn0).trans hn)
    have hlt : Int.log 2 |(n : ℚ)| < (f.prec : Int) ∨
        Int.log 2 |(n : ℚ)| = (f.prec : Int) := by
      omega
    have hp' : (1 : Int) ≤ f.prec := by exact_mod_cast hp
    -- the unit in the last place is `2 ^ e` with `e ≤ 1`, and `e ≤ 0` unless `|n| = 2 ^ prec`
    rcases hlt with hlt | heq
    · have he : f.ulpExp (n : ℚ) ≤ 0 := by unfold Format.ulpExp; omega
      have hN := two_zpow_eq_natCast (-f.ulpExp (n : ℚ)) (by omega)
      have hx : (n : ℚ) / (2 : ℚ) ^ f.ulpExp (n : ℚ) =
          ((n * (2 : Int) ^ (-f.ulpExp (n : ℚ)).toNat : Int) : ℚ) := by
        rw [Int.cast_mul, ← hN, zpow_neg, div_eq_mul_inv]
      unfold Format.roundRaw
      rw [hx, roundNE_intCast, Int.cast_mul, ← hN, zpow_neg, mul_assoc,
        inv_mul_cancel₀ (by positivity), mul_one]
    · have habs : |(n : ℚ)| = (2 : ℚ) ^ (f.prec : Int) :=
        le_antisymm hn (by rw [← heq]; exact two_zpow_log_le _ hn0)
      have he : f.ulpExp (n : ℚ) = 1 := by unfold Format.ulpExp; omega
      have hpw : (2 : ℚ) ^ (f.prec : Int) = (((2 : Int) ^ (f.prec - 1) * 2 : Int) : ℚ) := by
        rw [zpow_natCast]; push_cast
        rw [← pow_succ]; congr 1; omega
      unfold Format.roundRaw
      rw [he]
      rcases abs_cases (n : ℚ) with ⟨h, -⟩ | ⟨h, -⟩
      · rw [h] at habs
        have hx : (n : ℚ) / (2 : ℚ) ^ (1 : Int) = (((2 : Int) ^ (f.prec - 1) : Int) : ℚ) := by
          rw [habs, hpw]; push_cast; simp
        rw [hx, roundNE_intCast, habs, hpw]; push_cast; simp
      · have hn' : (n : ℚ) = -(2 : ℚ) ^ (f.prec : Int) := by linarith
        have hx : (n : ℚ) / (2 : ℚ) ^ (1 : Int) =
            ((-(2 : Int) ^ (f.prec - 1) : Int) : ℚ) := by
          rw [hn', hpw]; push_cast; simp; ring
        rw [hx, roundNE_intCast, hn', hpw]; push_cast; simp

/-- An integer of magnitude at most `2^53` is a `double`. -/
theorem Format.round_intCast64 (n : Int) (hn : |(n : ℚ)| ≤ (2 : ℚ) ^ (53 : Int)) :
    binary64.round (n : ℚ) = Fp.fin (n : ℚ) :=
  binary64.round_intCast n (by decide) (by decide) (by decide) hn

/-- An integer of magnitude at most `2^24` is a `float`. -/
theorem Format.round_intCast32 (n : Int) (hn : |(n : ℚ)| ≤ (2 : ℚ) ^ (24 : Int)) :
    binary32.round (n : ℚ) = Fp.fin (n : ℚ) :=
  binary32.round_intCast n (by decide) (by decide) (by decide) hn

/-- A number of magnitude at least `2^k`, with `k` at least the smallest normal exponent,
is rounded with a relative error of at most `2^(-prec)`. -/
theorem Format.roundRaw_relerr (f : Format) (q : ℚ) (k : Int) (hk : 1 - f.emax ≤ k)
    (hq : (2 : ℚ) ^ k ≤ |q|) :
    |f.roundRaw q - q| ≤ |q| * (2 : ℚ) ^ (-(f.prec : Int)) := by
  have hq0 : q ≠ 0 := by
    intro h; rw [h, abs_zero] at hq
    have : (0 : ℚ) < (2 : ℚ) ^ k := by positivity
    linarith
  have hL : k ≤ Int.log 2 |q| :=
    (Int.zpow_le_iff_le_log (by norm_num) (abs_pos.mpr hq0)).mp (by exact_mod_cast hq)
  have he : f.ulpExp q = Int.log 2 |q| - ((f.prec : Int) - 1) := by
    unfold Format.ulpExp; omega
  have hpos : (0 : ℚ) < (2 : ℚ) ^ f.ulpExp q := by positivity
  have hm := abs_roundNE_sub_le (q / (2 : ℚ) ^ f.ulpExp q)
  have hfac : f.roundRaw q - q =
      ((roundNE (q / (2 : ℚ) ^ f.ulpExp q) : ℚ) - q / (2 : ℚ) ^ f.ulpExp q) *
        (2 : ℚ) ^ f.ulpExp q := by
    unfold Format.roundRaw
    field_simp
  rw [hfac, abs_mul, abs_of_pos hpos]
  have h2 : (2 : ℚ) ^ f.ulpExp q =
      (2 : ℚ) ^ Int.log 2 |q| * (2 : ℚ) ^ (-(f.prec : Int)) * 2 := by
    rw [he, ← zpow_add₀ (by norm_num), ← zpow_add_one₀ (by norm_num)]
    congr 1; ring
  have hlog := two_zpow_log_le q hq0
  have hu : (0 : ℚ) < (2 : ℚ) ^ (-(f.prec : Int)) := by positivity
  calc |(roundNE (q / (2 : ℚ) ^ f.ulpExp q) : ℚ) - q / (2 : ℚ) ^ f.ulpExp q| *
        (2 : ℚ) ^ f.ulpExp q
      ≤ 1 / 2 * (2 : ℚ) ^ f.ulpExp q := mul_le_mul_of_nonneg_right hm hpos.le
    _ = (2 : ℚ) ^ Int.log 2 |q| * (2 : ℚ) ^ (-(f.prec : Int)) := by rw [h2]; ring
    _ ≤ |q| * (2 : ℚ) ^ (-(f.prec : Int)) := mul_le_mul_of_nonneg_right hlog hu.le

/-- A number between `2^k` and `2^j` rounds to a finite value between `2^k` and `2^j`. -/
theorem Format.round_inRange (f : Format) (q : ℚ) (k j : Int) (hp : 1 ≤ f.prec)
    (hk : 2 - f.emax - (f.prec : Int) ≤ k) (hkj : k ≤ j) (hj : j ≤ f.emax)
    (h1 : (2 : ℚ) ^ k ≤ q) (h2 : q ≤ (2 : ℚ) ^ j) :
    (f.round q).InRange ((2 : ℚ) ^ k) ((2 : ℚ) ^ j) := by
  have hpos : 0 < q := lt_of_lt_of_le (by positivity) h1
  obtain ⟨hr, hb⟩ := f.round_of_abs_le q j hp (by omega) hj (by rwa [abs_of_pos hpos])
  exact ⟨_, hr, f.roundRaw_ge_of_ge q k hp hk h1, (le_abs_self _).trans hb⟩

/-- A number between `0` and `2^j` rounds to a finite value between `0` and `2^j`. -/
theorem Format.round_inRange_nonneg (f : Format) (q : ℚ) (j : Int) (hp : 1 ≤ f.prec)
    (hj1 : 2 - f.emax - (f.prec : Int) ≤ j) (hj : j ≤ f.emax)
    (h1 : 0 ≤ q) (h2 : q ≤ (2 : ℚ) ^ j) : (f.round q).InRange 0 ((2 : ℚ) ^ j) := by
  obtain ⟨hr, hb⟩ := f.round_of_abs_le q j hp hj1 hj (by rwa [abs_of_nonneg h1])
  exact ⟨_, hr, f.roundRaw_nonneg q h1, (le_abs_self _).trans hb⟩

/-! ## Auxiliary lemmas: finite values of bounded magnitude -/

/-- A bound on the magnitude can be enlarged. -/
theorem Fp.Bdd.weaken {x : Fp} {j k : Int} (h : x.Bdd j) (hjk : j ≤ k) : x.Bdd k := by
  obtain ⟨q, rfl, hq⟩ := h
  exact ⟨q, rfl, hq.trans (zpow_le_zpow_right₀ (by norm_num) hjk)⟩

/-- A finite number is bounded by any power of two above its magnitude. -/
theorem Fp.Bdd.fin_of_abs_le (q : ℚ) (j : Int) (h : |q| ≤ (2 : ℚ) ^ j) : (Fp.fin q).Bdd j :=
  ⟨q, rfl, h⟩

/-- Rounding a number of magnitude at most `2^j` gives a value of magnitude at most `2^j`. -/
theorem Fp.Bdd.round (f : Format) (q : ℚ) (j : Int) (hp : 1 ≤ f.prec)
    (hj1 : 2 - f.emax - (f.prec : Int) ≤ j) (hj2 : j ≤ f.emax) (hq : |q| ≤ (2 : ℚ) ^ j) :
    (f.round q).Bdd j := by
  obtain ⟨h1, h2⟩ := f.round_of_abs_le q j hp hj1 hj2 hq
  exact ⟨_, h1, h2⟩

/-- The sum of two values of magnitude at most `2^j` is finite, of magnitude at most
`2^(j+1)`. -/
theorem Fp.Bdd.add (f : Format) (x y : Fp) (j r : Int) (hx : x.Bdd j) (hy : y.Bdd j)
    (hp : 1 ≤ f.prec) (hjr : j + 1 ≤ r) (hr1 : 2 - f.emax - (f.prec : Int) ≤ r)
    (hr2 : r ≤ f.emax) : (Fp.add f x y).Bdd r := by
  obtain ⟨a, rfl, ha⟩ := hx
  obtain ⟨b, rfl, hb⟩ := hy
  simp only [Fp.add]
  apply Fp.Bdd.round f _ _ hp hr1 hr2
  have h2 : (2 : ℚ) ^ (j + 1) ≤ (2 : ℚ) ^ r := zpow_le_zpow_right₀ (by norm_num) hjr
  rw [zpow_add_one₀ (by norm_num)] at h2
  calc |a + b| ≤ |a| + |b| := abs_add a b
    _ ≤ (2 : ℚ) ^ j * 2 := by linarith
    _ ≤ (2 : ℚ) ^ r := h2

/-- The difference of two values of magnitude at most `2^j` is finite, of magnitude at most
`2^(j+1)`. -/
theorem Fp.Bdd.sub (f : Format) (x y : Fp) (j r : Int) (hx : x.Bdd j) (hy : y.Bdd j)
    (hp : 1 ≤ f.prec) (hjr : j + 1 ≤ r) (hr1 : 2 - f.emax - (f.prec : Int) ≤ r)
    (hr2 : r ≤ f.emax) : (Fp.sub f x y).Bdd r := by
  obtain ⟨b, rfl, hb⟩ := hy
  exact Fp.Bdd.add f x (Fp.fin (-b)) j r hx ⟨-b, rfl, by rwa [abs_neg]⟩ hp hjr hr1 hr2

/-- The product of two values of magnitude at most `2^j` and `2^k` is finite, of magnitude
at most `2^(j+k)`. -/
theorem Fp.Bdd.mul (f : Format) (x y : Fp) (j k r : Int) (hx : x.Bdd j) (hy : y.Bdd k)
    (hp : 1 ≤ f.prec) (hjr : j + k ≤ r) (hr1 : 2 - f.emax - (f.prec : Int) ≤ r)
    (hr2 : r ≤ f.emax) : (Fp.mul f x y).Bdd r := by
  obtain ⟨a, rfl, ha⟩ := hx
  obtain ⟨b, rfl, hb⟩ := hy
  simp only [Fp.mul]
  apply Fp.Bdd.round f _ _ hp hr1 hr2
  have h2 : (2 : ℚ) ^ (j + k) ≤ (2 : ℚ) ^ r := zpow_le_zpow_right₀ (by norm_num) hjr
  rw [zpow_add₀ (by norm_num)] at h2
  rw [abs_mul]
  exact (mul_le_mul ha hb (abs_nonneg _) (by positivity)).trans h2

/-- Converting a value of magnitude at most `2^j` to a format that reaches `2^j` keeps it
finite and of magnitude at most `2^j`. -/
theorem Fp.Bdd.cast (f : Format) (x : Fp) (j : Int) (hx : x.Bdd j)
    (hp : 1 ≤ f.prec) (hj1 : 2 - f.emax - (f.prec : Int) ≤ j) (hj2 : j ≤ f.emax) :
    (Fp.cast f x).Bdd j := by
  obtain ⟨a, rfl, ha⟩ := hx
  exact Fp.Bdd.round f _ _ hp hj1 hj2 ha

/-- A value of magnitude at most `2^30` converts to an `int`. -/
theorem Fp.toInt_of_bdd (x : Fp) (h : x.Bdd 30) :
    ∃ n : Int, x.toInt = some n ∧ -1073741824 ≤ n ∧ n ≤ 1073741824 := by
  obtain ⟨q, rfl, hq⟩ := h
  have hb := abs_truncToInt_le q 1073741824 (by norm_num) (by
    have : (2 : ℚ) ^ (30 : Int) = ((1073741824 : Int) : ℚ) := by norm_num
    rw [← this]; exact hq)
  refine ⟨truncToInt q, ?_, hb.1, hb.2⟩
  simp only [Fp.toInt]
  rw [if_pos ⟨by omega, by omega⟩]

/-- A value between `1` and `2^30` converts to a positive `int`. -/
theorem Fp.toInt_of_inRange (x : Fp) (h : x.InRange 1 ((2 : ℚ) ^ (30 : Int))) :
    ∃ n : Int, x.toInt = some n ∧ 1 ≤ n ∧ n ≤ 1073741824 := by
  obtain ⟨q, rfl, hq1, hq2⟩ := h
  have hb := abs_truncToInt_le q 1073741824 (by norm_num) (by
    have : (2 : ℚ) ^ (30 : Int) = ((1073741824 : Int) : ℚ) := by norm_num
    rw [← this, abs_of_nonneg (by linarith)]; exact hq2)
  have h1 := one_le_truncToInt q hq1
  refine ⟨truncToInt q, ?_, h1, hb.2⟩
  simp only [Fp.toInt]
  rw [if_pos ⟨by omega, by omega⟩]

/-! ## Auxiliary lemmas: the controller in machine arithmetic -/

/-- The function `std::clamp` returns NaN unchanged: both comparisons are false. -/
theorem Ieee.clamp_nan : Ieee.clamp Fp.nan (Fp.fin 0.0) (Fp.fin 25.0) = Fp.nan := by
  simp [Ieee.clamp, Fp.lt]

/-- The function `std::clamp` maps every value other than NaN, the infinities included,
into `[0, 25]`. -/
theorem Ieee.clamp_inRange (v : Fp) (hv : v ≠ Fp.nan) :
    (Ieee.clamp v (Fp.fin 0.0) (Fp.fin 25.0)).InRange 0 25 := by
  cases v with
  | nan => exact absurd rfl hv
  | pinf => exact ⟨25, by norm_num [Ieee.clamp, Fp.lt], by norm_num, le_refl _⟩
  | ninf => exact ⟨0, by norm_num [Ieee.clamp, Fp.lt], le_refl _, by norm_num⟩
  | fin q =>
    by_cases h1 : q < 0
    · exact ⟨0, by norm_num [Ieee.clamp, Fp.lt, h1], le_refl _, by norm_num⟩
    · by_cases h2 : (25 : ℚ) < q
      · exact ⟨25, by norm_num [Ieee.clamp, Fp.lt, h1, h2], by norm_num, le_refl _⟩
      · exact ⟨q, by norm_num [Ieee.clamp, Fp.lt, h1, h2], not_lt.mp h1, not_lt.mp h2⟩

/-- The gain left by one PID step is NaN when the sum passed to `std::clamp` is NaN and
lies in `[0, 25]` otherwise. -/
theorem Ieee.pidStep_gain_cases (node : Ieee.Node) (measured setpoint : Fp) :
    ((Ieee.pidUpdate node measured setpoint).current_gain_ = Fp.nan →
      (Ieee.pidStep node measured setpoint).current_gain_ = Fp.nan) ∧
    ((Ieee.pidUpdate node measured setpoint).current_gain_ ≠ Fp.nan →
      ((Ieee.pidStep node measured setpoint).current_gain_).InRange 0 25) := by
  constructor
  · intro h
    simp only [Ieee.pidStep, h, Ieee.clamp_nan]
  · intro h
    simp only [Ieee.pidStep]
    exact Ieee.clamp_inRange _ h

/-- The gain left by one PID step is NaN or lies in `[0, 25]`. -/
theorem Ieee.pidStep_gain_nan_or_range (node : Ieee.Node) (measured setpoint : Fp) :
    (Ieee.pidStep node measured setpoint).current_gain_ = Fp.nan ∨
    ((Ieee.pidStep node measured setpoint).current_gain_).InRange 0 25 := by
  by_cases h : (Ieee.pidUpdate node measured setpoint).current_gain_ = Fp.nan
  · exact Or.inl ((Ieee.pidStep_gain_cases node measured setpoint).1 h)
  · exact Or.inr ((Ieee.pidStep_gain_cases node measured setpoint).2 h)

/-- With the controller enabled, `imageCallback` is the PID step applied to the
measurement and setpoint chosen by the metering block. -/
theorem Ieee.imageCallback_step (node : Ieee.Node) (gray_img : Mat) (armors : List Armor)
    (uninit b t : Fp) (h : node.Use_AAG_ = true)
    (hm : Ieee.meter node gray_img armors uninit = some (b, t)) :
    Ieee.imageCallback node gray_img armors uninit = some (Ieee.pidStep node b t) := by
  simp [Ieee.imageCallback, h, hm]

/-- With gains, gain and integral of magnitude at most `2^400` and last error,
measurement and setpoint of magnitude at most `2^100`, no operation of the PID block
overflows and the sum passed to `std::clamp` is not NaN. -/
theorem Ieee.pidUpdate_finite (node : Ieee.Node) (measured setpoint : Fp)
    (hKp : node.Kp_.Bdd 400) (hKi : node.Ki_.Bdd 400) (hKd : node.Kd_.Bdd 400)
    (hg : node.current_gain_.Bdd 400) (hi : node.integral_.Bdd 400)
    (hl : node.last_error_.Bdd 100) (hm : measured.Bdd 100) (hs : setpoint.Bdd 100) :
    (Ieee.pidUpdate node measured setpoint).current_gain_ ≠ Fp.nan := by
  have he := Fp.Bdd.sub binary32 setpoint measured 100 101 hs hm
    (by decide) (by decide) (by decide) (by decide)
  have hi' := Fp.Bdd.add binary64 node.integral_ _ 400 401 hi (he.weaken (by decide))
    (by decide) (by decide) (by decide) (by decide)
  have hd0 := Fp.Bdd.sub binary64 _ node.last_error_ 101 102 he (hl.weaken (by decide))
    (by decide) (by decide) (by decide) (by decide)
  have hd := Fp.Bdd.cast binary32 _ 102 hd0 (by decide) (by decide) (by decide)
  have h1 := Fp.Bdd.mul binary64 _ _ 400 101 801 hKp he
    (by decide) (by decide) (by decide) (by decide)
  have h2 := Fp.Bdd.mul binary64 _ _ 400 401 801 hKi hi'
    (by decide) (by decide) (by decide) (by decide)
  have h3 := Fp.Bdd.mul binary64 _ _ 400 102 802 hKd hd
    (by decide) (by decide) (by decide) (by decide)
  have h12 := Fp.Bdd.add binary64 _ _ 801 802 h1 h2
    (by decide) (by decide) (by decide) (by decide)
  have h123 := Fp.Bdd.add binary64 _ _ 802 803 h12 h3
    (by decide) (by decide) (by decide) (by decide)
  have hall := Fp.Bdd.add binary64 _ _ 803 804 (hg.weaken (by decide)) h123
    (by decide) (by decide) (by decide) (by decide)
  obtain ⟨q, hq, -⟩ := hall
  simp only [Ieee.pidUpdate]
  rw [hq]
  exact fun h => Fp.noConfusion h

/-- The members of the default node are within the bounds of `Ieee.pidUpdate_finite`. -/
theorem Ieee.defaultNode_bdd :
    Ieee.defaultNode.Kp_.Bdd 400 ∧ Ieee.defaultNode.Ki_.Bdd 400 ∧
    Ieee.defaultNode.Kd_.Bdd 400 ∧ Ieee.defaultNode.current_gain_.Bdd 400 ∧
    Ieee.defaultNode.integral_.Bdd 400 ∧ Ieee.defaultNode.last_error_.Bdd 100 := by
  refine ⟨?_, ?_, ?_, ?_, ?_, ?_⟩
  · exact Fp.Bdd.round binary64 _ 400 (by decide) (by decide) (by decide) (by norm_num [abs_le])
  · exact Fp.Bdd.round binary64 _ 400 (by decide) (by decide) (by decide) (by norm_num [abs_le])
  · exact Fp.Bdd.round binary64 _ 400 (by decide) (by decide) (by decide) (by norm_num [abs_le])
  · exact Fp.Bdd.round binary64 _ 400 (by decide) (by decide) (by decide) (by norm_num [abs_le])
  · exact Fp.Bdd.fin_of_abs_le 0 400 (by norm_num)
  · exact Fp.Bdd.fin_of_abs_le 0 100 (by norm_num)

/-- The product `2^1023 * 40` exceeds the range of `double`. -/
theorem Ieee.hugeGain_overflow : (2 : ℚ) ^ ((1023 : Int) + 1) ≤ Ieee.hugeGain * 40 := by
  unfold Ieee.hugeGain
  rw [zpow_add_one₀ (by norm_num), zpow_ofNat]
  have : (0 : ℚ) < 2 ^ 1023 := by positivity
  linarith

/-- The gain after one PID step, as an expression of the members and the two inputs. -/
theorem Ieee.pidStep_gain_eq (node : Ieee.Node) (measured setpoint : Fp) :
    (Ieee.pidStep node measured setpoint).current_gain_ =
      Ieee.clamp
        (Fp.add binary64 node.current_gain_
          (Fp.add binary64
            (Fp.add binary64 (Fp.mul binary64 node.Kp_ (Fp.sub binary32 setpoint measured))
              (Fp.mul binary64 node.Ki_
                (Fp.add binary64 node.integral_ (Fp.sub binary32 setpoint measured))))
            (Fp.mul binary64 node.Kd_
              (Fp.cast binary32
                (Fp.sub binary64 (Fp.sub binary32 setpoint measured) node.last_error_)))))
        (Fp.fin 0.0) (Fp.fin 25.0) := rfl

/-! ## Auxiliary lemmas: the sampled rectangle in machine arithmetic -/

/-- The value of `SCALE`: the `float` nearest to the `double` nearest to `0.07`. -/
theorem Ieee.SCALE_eq : Ieee.SCALE = Fp.fin (9395241 / 134217728) := by
  have h64 : binary64.round 0.07 = Fp.fin (1261007895663739 / 18014398509481984) := by
    apply Format.round_cert binary64 _ _ (-4) (-56) 5044031582654956 <;>
      norm_num [binary64, abs_lt, abs_of_pos]
  have h32 : binary32.round (1261007895663739 / 18014398509481984) =
      Fp.fin (9395241 / 134217728) := by
    apply Format.round_cert binary32 _ _ (-4) (-27) 9395241 <;>
      norm_num [binary32, abs_lt, abs_of_pos]
  unfold Ieee.SCALE
  rw [h64]
  simp only [Fp.cast]
  exact h32

/-- The two conversions of one axis of `lightBox`: for an origin of magnitude at most
`2^29` and a positive size of at most `2^29`, both are defined and the new size is
positive. -/
theorem Ieee.lightBox_axis (x w : Int) (hx1 : -536870912 ≤ x) (hx2 : x ≤ 536870912)
    (hw1 : 0 < w) (hw2 : w ≤ 536870912) :
    (∃ n : Int, Fp.toInt (Fp.sub binary32 (Ieee.ofInt x)
        (Fp.mul binary32 (Ieee.ofInt w) Ieee.SCALE)) = some n ∧
      -1073741824 ≤ n ∧ n ≤ 1073741824) ∧
    (∃ n : Int, Fp.toInt (Fp.add binary32 (Ieee.ofInt w)
        (Fp.mul binary32 (Fp.mul binary32 (Ieee.ofInt w) Ieee.SCALE) (Ieee.ofInt 2))) = some n ∧
      1 ≤ n ∧ n ≤ 1073741824) := by
  have p29 : (2 : ℚ) ^ (29 : Int) = 536870912 := by norm_num
  have hxb : (Ieee.ofInt x).Bdd 29 := by
    apply Fp.Bdd.round binary32 _ 29 (by decide) (by decide) (by decide)
    rw [p29, abs_le]
    constructor <;> [exact_mod_cast hx1; exact_mod_cast hx2]
  obtain ⟨w', hw', hw'1, hw'2⟩ :
      (Ieee.ofInt w).InRange ((2 : ℚ) ^ (0 : Int)) ((2 : ℚ) ^ (29 : Int)) := by
    apply binary32.round_inRange _ 0 29 (by decide) (by decide) (by decide) (by decide)
    · rw [zpow_zero]; exact_mod_cast hw1
    · rw [p29]; exact_mod_cast hw2
  rw [zpow_zero] at hw'1
  rw [Ieee.SCALE_eq, hw']
  obtain ⟨a, ha, ha1, ha2⟩ :
      (Fp.mul binary32 (Fp.fin w') (Fp.fin (9395241 / 134217728))).InRange
        0 ((2 : ℚ) ^ (26 : Int)) := by
    simp only [Fp.mul]
    apply binary32.round_inRange_nonneg _ 26 (by decide) (by decide) (by decide)
    · positivity
    · rw [p29] at hw'2
      norm_num
      linarith
  rw [ha]
  constructor
  · apply Fp.toInt_of_bdd
    obtain ⟨x', hx', hx'b⟩ := hxb
    rw [hx']
    apply Fp.Bdd.sub binary32 _ _ 29 30 ⟨x', rfl, hx'b⟩ _ (by decide) (by decide) (by decide)
      (by decide)
    refine ⟨a, rfl, ?_⟩
    rw [abs_of_nonneg ha1]
    exact ha2.trans (zpow_le_zpow_right₀ (by norm_num) (by decide))
  · apply Fp.toInt_of_inRange
    have h2 : Ieee.ofInt 2 = Fp.fin 2 := by
      have := Format.round_intCast32 2 (by norm_num [abs_le])
      simpa [Ieee.ofInt] using this
    rw [h2]
    obtain ⟨b, hb, hb1, hb2⟩ : (Fp.mul binary32 (Fp.fin a) (Fp.fin 2)).InRange
        0 ((2 : ℚ) ^ (27 : Int)) := by
      simp only [Fp.mul]
      apply binary32.round_inRange_nonneg _ 27 (by decide) (by decide) (by decide)
      · positivity
      · have : (2 : ℚ) ^ (27 : Int) = (2 : ℚ) ^ (26 : Int) * 2 := by norm_num
        rw [this]; linarith
    rw [hb]
    simp only [Fp.add]
    have := binary32.round_inRange (w' + b) 0 30 (by decide) (by decide) (by decide) (by decide)
      (by rw [zpow_zero]; linarith) (by
        rw [p29] at hw'2
        have e27 : (2 : ℚ) ^ (27 : Int) = 134217728 := by norm_num
        have e30 : (2 : ℚ) ^ (30 : Int) = 1073741824 := by norm_num
        rw [e27] at hb2
        rw [e30]; linarith)
    rw [zpow_zero] at this
    exact this

/-- The boundary check of `lightBox`, once the four conversions are known. -/
theorem Ieee.lightBox_of_conversions (light : Light) (gray_img : Mat) (x y w h : Int)
    (hx : Fp.toInt (Fp.sub binary32 (Ieee.ofInt light.x)
      (Fp.mul binary32 (Ieee.ofInt light.width) Ieee.SCALE)) = some x)
    (hy : Fp.toInt (Fp.sub binary32 (Ieee.ofInt light.y)
      (Fp.mul binary32 (Ieee.ofInt light.height) Ieee.SCALE)) = some y)
    (hw : Fp.toInt (Fp.add binary32 (Ieee.ofInt light.width)
      (Fp.mul binary32 (Fp.mul binary32 (Ieee.ofInt light.width) Ieee.SCALE)
        (Ieee.ofInt 2))) = some w)
    (hh : Fp.toInt (Fp.add binary32 (Ieee.ofInt light.height)
      (Fp.mul binary32 (Fp.mul binary32 (Ieee.ofInt light.height) Ieee.SCALE)
        (Ieee.ofInt 2))) = some h) :
    Ieee.lightBox light gray_img = some
      { x := min (max x 0) ((gray_img.cols : Int) - 1),
        y := min (max y 0) ((gray_img.rows : Int) - 1),
        width := min w ((gray_img.cols : Int) - min (max x 0) ((gray_img.cols : Int) - 1)),
        height := min h ((gray_img.rows : Int) - min (max y 0) ((gray_img.rows : Int) - 1)) } := by
  simp only [Ieee.lightBox, hx, hy, hw, hh, Option.pure_def, Option.bind_eq_bind,
    Option.some_bind]

/-- When the conversion of the scaled width is undefined, `lightBox` has no result. -/
theorem Ieee.lightBox_none_of_width (light : Light) (gray_img : Mat)
    (hw : Fp.toInt (Fp.add binary32 (Ieee.ofInt light.width)
      (Fp.mul binary32 (Fp.mul binary32 (Ieee.ofInt light.width) Ieee.SCALE)
        (Ieee.ofInt 2))) = none) :
    Ieee.lightBox light gray_img = none := by
  cases hx : Fp.toInt (Fp.sub binary32 (Ieee.ofInt light.x)
      (Fp.mul binary32 (Ieee.ofInt light.width) Ieee.SCALE)) with
  | none => simp only [Ieee.lightBox, hx, Option.bind_eq_bind, Option.none_bind]
  | some x =>
    cases hy : Fp.toInt (Fp.sub binary32 (Ieee.ofInt light.y)
        (Fp.mul binary32 (Ieee.ofInt light.height) Ieee.SCALE)) with
    | none =>
      simp only [Ieee.lightBox, hx, hy, Option.bind_eq_bind, Option.some_bind,
        Option.none_bind]
    | some y =>
      simp only [Ieee.lightBox, hx, hy, hw, Option.bind_eq_bind, Option.some_bind,
        Option.none_bind]

/-- On an image with at least one row and one column, the rectangle sampled around a
moderate light bar is defined, non-empty and satisfies the precondition of
`cv::Mat::operator()`. -/
theorem Ieee.lightBox_nonempty_inside (light : Light) (gray_img : Mat)
    (hrows : 0 < gray_img.rows) (hcols : 0 < gray_img.cols) (hl : light.Moderate) :
    ∃ b : Rect, Ieee.lightBox light gray_img = some b ∧
      0 < b.width ∧ 0 < b.height ∧ b.inside gray_img := by
  obtain ⟨hx1, hx2, hy1, hy2, hw1, hw2, hh1, hh2⟩ := hl
  obtain ⟨⟨x, hx, -, -⟩, ⟨w, hw, hwpos, -⟩⟩ :=
    Ieee.lightBox_axis light.x light.width hx1 hx2 hw1 hw2
  obtain ⟨⟨y, hy, -, -⟩, ⟨h, hh, hhpos, -⟩⟩ :=
    Ieee.lightBox_axis light.y light.height hy1 hy2 hh1 hh2
  have hr : (1 : Int) ≤ gray_img.rows := by exact_mod_cast hrows
  have hc : (1 : Int) ≤ gray_img.cols := by exact_mod_cast hcols
  refine ⟨_, Ieee.lightBox_of_conversions light gray_img x y w h hx hy hw hh, ?_, ?_, ?_⟩
  · simp only; omega
  · simp only; omega
  · simp only [Rect.inside]; omega

/-- When `lightBox` is defined and inside the image, `getLightMeanBrightness` returns the
mean over it, narrowed to `float`. -/
theorem Ieee.getLight_eq (light : Light) (gray_img : Mat) (b : Rect)
    (hb : Ieee.lightBox light gray_img = some b) (hin : b.inside gray_img) :
    Ieee.getLightMeanBrightness light gray_img =
      some (Fp.cast binary32 (Ieee.rectMean gray_img b)) := by
  simp only [Ieee.getLightMeanBrightness, hb, Ieee.roiMean, if_pos hin, Option.pure_def,
    Option.bind_eq_bind, Option.some_bind]

/-! ## Auxiliary lemmas: the metering grid in machine arithmetic -/

/-- Reading the mean of a patch of the grid never throws. -/
theorem Ieee.roiMean_patch_some (gray_img : Mat) (i j : Fin 3) :
    Ieee.roiMean gray_img (patchRoi gray_img i j) = some (Ieee.patchMean gray_img i j) := by
  simp only [Ieee.roiMean, if_pos (patchRoi_inside gray_img i j), Ieee.patchMean]

/-- The grid loop unrolled: one assignment and eight accumulations, whatever the
initial content of the uninitialised local. -/
theorem Ieee.globalBrightness_unrolled (gray_img : Mat) (uninit : Fp) :
    Ieee.globalBrightness gray_img uninit = some
      (Ieee.gridAcc 0.05 (Ieee.gridAcc 0.1 (Ieee.gridAcc 0.05
        (Ieee.gridAcc 0.1 (Ieee.gridAcc 0.4 (Ieee.gridAcc 0.1
          (Ieee.gridAcc 0.05 (Ieee.gridAcc 0.1
            (Ieee.gridFirst (Ieee.patchMean gray_img 0 0))
            (Ieee.patchMean gray_img 0 1)) (Ieee.patchMean gray_img 0 2))
          (Ieee.patchMean gray_img 1 0)) (Ieee.patchMean gray_img 1 1))
        (Ieee.patchMean gray_img 1 2)) (Ieee.patchMean gray_img 2 0))
      (Ieee.patchMean gray_img 2 1)) (Ieee.patchMean gray_img 2 2)) := by
  have h00 := Ieee.roiMean_patch_some gray_img 0 0
  have h01 := Ieee.roiMean_patch_some gray_img 0 1
  have h02 := Ieee.roiMean_patch_some gray_img 0 2
  have h10 := Ieee.roiMean_patch_some gray_img 1 0
  have h11 := Ieee.roiMean_patch_some gray_img 1 1
  have h12 := Ieee.roiMean_patch_some gray_img 1 2
  have h20 := Ieee.roiMean_patch_some gray_img 2 0
  have h21 := Ieee.roiMean_patch_some gray_img 2 1
  have h22 := Ieee.roiMean_patch_some gray_img 2 2
  simp only [Fin.isValue, Fin.val_zero, Fin.val_one, Fin.val_two]
    at h00 h01 h02 h10 h11 h12 h20 h21 h22
  have hr : List.range 3 = [0, 1, 2] := rfl
  simp [Ieee.globalBrightness, hr, Ieee.gridBody, Ieee.gridFirst, Ieee.gridAcc,
    h00, h01, h02, h10, h11, h12, h20, h21, h22]

/-- In the 6 by 6 frame of value 7 every patch mean is exactly 7. -/
theorem Ieee.patchMean_seven (i j : Fin 3) :
    Ieee.patchMean (uniformMat 6 6 7) i j = Fp.fin 7 := by
  have hs : rectSum (uniformMat 6 6 7) (patchRoi (uniformMat 6 6 7) i j) = 28 := by
    revert i j; decide
  have hn : (patchRoi (uniformMat 6 6 7) i j).width * (patchRoi (uniformMat 6 6 7) i j).height
      = 4 := by
    revert i j; decide
  have r28 : binary64.round ((28 : Nat) : ℚ) = Fp.fin 28 := by
    have := Format.round_intCast64 28 (by norm_num [abs_le])
    simpa using this
  have r4 : binary64.round ((4 : Int) : ℚ) = Fp.fin 4 := by
    have := Format.round_intCast64 4 (by norm_num [abs_le])
    simpa using this
  have rq : binary64.round ((1 : ℚ) / 4) = Fp.fin (1 / 4) := by
    apply Format.round_cert binary64 _ _ (-2) (-54) 4503599627370496 <;>
      norm_num [binary64, abs_lt, abs_of_pos]
  have r7 : binary64.round ((28 : ℚ) * (1 / 4)) = Fp.fin 7 := by
    have := Format.round_intCast64 7 (by norm_num [abs_le])
    norm_num at this ⊢
    exact this
  unfold Ieee.patchMean Ieee.rectMean
  simp only [hs, hn]
  rw [r28, if_pos (by decide), r4]
  simp only [Fp.div]
  rw [if_neg (by norm_num), rq]
  simp only [Fp.mul]
  exact r7

/-! ## Auxiliary lemmas: relative rounding error -/

/-- A relative error bound can be enlarged. -/
theorem Fp.Near.relax {x : Fp} {t ε ε' : ℚ} (h : x.Near t ε) (ht : 0 ≤ t) (he : ε ≤ ε') :
    x.Near t ε' := by
  obtain ⟨y, rfl, hy⟩ := h
  exact ⟨y, rfl, hy.trans (mul_le_mul_of_nonneg_right he ht)⟩

/-- A number is within relative error zero of itself. -/
theorem Fp.Near.exact (t : ℚ) : (Fp.fin t).Near t 0 := ⟨t, rfl, by simp⟩

/-- A number in scale is non-negative. -/
theorem Ieee.Scale.zero_le {t : ℚ} (h : Ieee.Scale t) : 0 ≤ t := by
  rcases h with h | ⟨h, -⟩
  · exact h.ge
  · exact le_trans (by positivity) h

/-- Rounding a number within relative error `ε` of `t` gives a value within relative
error `ε + (1 + ε) * 2^(-prec)` of `t`. -/
theorem Format.near_round (f : Format) (y t ε : ℚ) (hp : 1 ≤ f.prec) (he1 : 62 ≤ f.emax)
    (ht : Ieee.Scale t) (hε : ε ≤ 1 / 2) (hy : |y - t| ≤ ε * t) :
    (f.round y).Near t (ε + (1 + ε) * (2 : ℚ) ^ (-(f.prec : Int))) := by
  have hu : (0 : ℚ) < (2 : ℚ) ^ (-(f.prec : Int)) := by positivity
  rcases ht with h0 | ⟨h1, h2⟩
  · subst h0
    have : y = 0 := by
      rw [mul_zero, sub_zero] at hy
      exact abs_eq_zero.mp (le_antisymm hy (abs_nonneg y))
    subst this
    exact ⟨0, by simp [Format.round], by simp⟩
  · have htpos : 0 < t := lt_of_lt_of_le (by positivity) h1
    obtain ⟨hy1, hy2⟩ := abs_le.mp hy
    have hylo : t / 2 ≤ y := by nlinarith
    have hyhi : y ≤ 2 * t := by nlinarith
    have hypos : 0 < y := by linarith
    have e61 : (2 : ℚ) ^ (61 : Int) = (2 : ℚ) ^ (60 : Int) * 2 := by norm_num
    have em61 : (2 : ℚ) ^ (-61 : Int) = (2 : ℚ) ^ (-60 : Int) / 2 := by norm_num
    have hhigh : y ≤ (2 : ℚ) ^ (61 : Int) := by
      rw [e61]
      exact hyhi.trans (by rw [mul_comm]; exact mul_le_mul_of_nonneg_right h2 (by norm_num))
    have hlow : (2 : ℚ) ^ (-61 : Int) ≤ y := by
      rw [em61]
      exact (div_le_div_of_nonneg_right h1 (by norm_num)).trans hylo
    obtain ⟨hr, -⟩ := f.round_of_abs_le y 61 hp (by omega) (by omega)
      (by rw [abs_of_pos hypos]; exact hhigh)
    have hrel := f.roundRaw_relerr y (-61) (by omega)
      (by rw [abs_of_pos hypos]; exact hlow)
    rw [abs_of_pos hypos] at hrel
    refine ⟨_, hr, ?_⟩
    have hyle : y ≤ (1 + ε) * t := by linarith
    calc |f.roundRaw y - t| = |(f.roundRaw y - y) + (y - t)| := by ring_nf
      _ ≤ |f.roundRaw y - y| + |y - t| := abs_add _ _
      _ ≤ y * (2 : ℚ) ^ (-(f.prec : Int)) + ε * t := add_le_add hrel hy
      _ ≤ (1 + ε) * t * (2 : ℚ) ^ (-(f.prec : Int)) + ε * t := by
          have := mul_le_mul_of_nonneg_right hyle hu.le
          linarith
      _ = (ε + (1 + ε) * (2 : ℚ) ^ (-(f.prec : Int))) * t := by ring

/-- The lemma `Format.near_round` for `double`. -/
theorem Ieee.near_round64 (y t ε : ℚ) (ht : Ieee.Scale t) (hε : ε ≤ 1 / 2)
    (hy : |y - t| ≤ ε * t) : (binary64.round y).Near t (ε + (1 + ε) / 9007199254740992) := by
  have := binary64.near_round y t ε (by decide) (by decide) ht hε hy
  have e : (2 : ℚ) ^ (-((binary64.prec : Nat) : Int)) = 1 / 9007199254740992 := by
    norm_num [binary64]
  rw [e] at this
  rw [div_eq_mul_one_div]
  exact this

/-- The lemma `Format.near_round` for `float`. -/
theorem Ieee.near_round32 (y t ε : ℚ) (ht : Ieee.Scale t) (hε : ε ≤ 1 / 2)
    (hy : |y - t| ≤ ε * t) : (binary32.round y).Near t (ε + (1 + ε) / 16777216) := by
  have := binary32.near_round y t ε (by decide) (by decide) ht hε hy
  have e : (2 : ℚ) ^ (-((binary32.prec : Nat) : Int)) = 1 / 16777216 := by
    norm_num [binary32]
  rw [e] at this
  rw [div_eq_mul_one_div]
  exact this

/-- Narrowing to `float` a value near `t` gives a value near `t`. -/
theorem Ieee.near_cast32 (x : Fp) (t ε : ℚ) (hx : x.Near t ε) (ht : Ieee.Scale t)
    (hε : ε ≤ 1 / 2) : (Fp.cast binary32 x).Near t (ε + (1 + ε) / 16777216) := by
  obtain ⟨y, rfl, hy⟩ := hx
  simp only [Fp.cast]
  exact Ieee.near_round32 y t ε ht hε hy

/-- The `double` product of values near `a` and `b` is near `a * b`. -/
theorem Ieee.near_mul64 (x y : Fp) (a b εa εb : ℚ) (hx : x.Near a εa) (hy : y.Near b εb)
    (ha : 0 ≤ a) (hb : 0 ≤ b) (hab : Ieee.Scale (a * b)) (hεa : 0 ≤ εa)
    (hε : εa + εb + εa * εb ≤ 1 / 2) :
    (Fp.mul binary64 x y).Near (a * b)
      ((εa + εb + εa * εb) + (1 + (εa + εb + εa * εb)) / 9007199254740992) := by
  obtain ⟨x', rfl, hx'⟩ := hx
  obtain ⟨y', rfl, hy'⟩ := hy
  simp only [Fp.mul]
  apply Ieee.near_round64 _ _ _ hab hε
  have hxabs : |x'| ≤ (1 + εa) * a := by
    have := abs_le.mp hx'
    rw [abs_le]; constructor <;> nlinarith
  calc |x' * y' - a * b| = |x' * (y' - b) + (x' - a) * b| := by ring_nf
    _ ≤ |x' * (y' - b)| + |(x' - a) * b| := abs_add _ _
    _ = |x'| * |y' - b| + |x' - a| * b := by rw [abs_mul, abs_mul, abs_of_nonneg hb]
    _ ≤ (1 + εa) * a * (εb * b) + εa * a * b := by
        have h1 : |x'| * |y' - b| ≤ (1 + εa) * a * (εb * b) :=
          mul_le_mul hxabs hy' (abs_nonneg _) (by positivity)
        have h2 : |x' - a| * b ≤ εa * a * b := mul_le_mul_of_nonneg_right hx' hb
        linarith
    _ = (εa + εb + εa * εb) * (a * b) := by ring

/-- The `double` sum of values near `a` and `b` is near `a + b`. -/
theorem Ieee.near_add64 (x y : Fp) (a b ε : ℚ) (hx : x.Near a ε) (hy : y.Near b ε)
    (hab : Ieee.Scale (a + b)) (hε : ε ≤ 1 / 2) :
    (Fp.add binary64 x y).Near (a + b) (ε + (1 + ε) / 9007199254740992) := by
  obtain ⟨x', rfl, hx'⟩ := hx
  obtain ⟨y', rfl, hy'⟩ := hy
  simp only [Fp.add]
  apply Ieee.near_round64 _ _ _ hab hε
  calc |x' + y' - (a + b)| = |(x' - a) + (y' - b)| := by ring_nf
    _ ≤ |x' - a| + |y' - b| := abs_add _ _
    _ ≤ ε * a + ε * b := add_le_add hx' hy'
    _ = ε * (a + b) := by ring

/-- A pixel value times a factor between `1/1024` and `1024` is in scale. -/
theorem Ieee.scale_mul (c v : ℚ) (hv : Ieee.PixelValue v) (hc1 : 1 / 1024 ≤ c)
    (hc2 : c ≤ 1024) : Ieee.Scale (c * v) := by
  rcases hv with h0 | ⟨h1, h2⟩
  · left; rw [h0, mul_zero]
  · right
    have hcpos : 0 < c := lt_of_lt_of_le (by norm_num) hc1
    constructor
    · have : (2 : ℚ) ^ (-60 : Int) ≤ 1 / 1024 := by norm_num
      calc (2 : ℚ) ^ (-60 : Int) ≤ 1 / 1024 := this
        _ ≤ c * 1 := by linarith
        _ ≤ c * v := mul_le_mul_of_nonneg_left h1 hcpos.le
    · have : (1024 : ℚ) * 255 ≤ (2 : ℚ) ^ (60 : Int) := by norm_num
      calc c * v ≤ 1024 * 255 := mul_le_mul hc2 h2 (by linarith) (by norm_num)
        _ ≤ (2 : ℚ) ^ (60 : Int) := this

/-- A pixel value is non-negative. -/
theorem Ieee.PixelValue.value_nonneg {v : ℚ} (hv : Ieee.PixelValue v) : 0 ≤ v := by
  rcases hv with h0 | ⟨h1, -⟩ <;> linarith

/-- A pixel value is in scale. -/
theorem Ieee.PixelValue.in_scale {v : ℚ} (hv : Ieee.PixelValue v) : Ieee.Scale v := by
  have := Ieee.scale_mul 1 v hv (by norm_num) (by norm_num)
  rwa [one_mul] at this

/-- The product `w * m` of one grid iteration is within `2^-50` of `w * v` when the patch
mean `m` is within `2^-51` of `v`. -/
theorem Ieee.near_weighted (w v : ℚ) (m : Fp) (hv : Ieee.PixelValue v)
    (hw1 : 1 / 1024 ≤ w) (hw2 : w ≤ 1) (hm : m.Near v (1 / 2251799813685248)) :
    (Fp.mul binary64 (binary64.round w) m).Near (w * v) (1 / 1125899906842624) := by
  have hwpos : 0 < w := lt_of_lt_of_le (by norm_num) hw1
  have hws : Ieee.Scale w := by
    right
    exact ⟨le_trans (by norm_num) hw1, le_trans hw2 (by norm_num)⟩
  have hwn := Ieee.near_round64 w w 0 hws (by norm_num) (by simp)
  have h := Ieee.near_mul64 _ m w v _ _ hwn hm hwpos.le hv.value_nonneg
    (Ieee.scale_mul w v hv hw1 (by linarith)) (by norm_num) (by norm_num)
  exact h.relax (mul_nonneg hwpos.le hv.value_nonneg) (by norm_num)

/-- The first assignment of the grid loop is within `2^-24 + 2^-40` of `0.05 * v`. -/
theorem Ieee.gridFirst_near (v : ℚ) (m : Fp) (hv : Ieee.PixelValue v)
    (hm : m.Near v (1 / 2251799813685248)) :
    (Ieee.gridFirst m).Near (0.05 * v) (1 / 16777216 + 1 / 1099511627776) := by
  have hp := Ieee.near_weighted 0.05 v m hv (by norm_num) (by norm_num) hm
  have hc := Ieee.near_cast32 _ _ _ hp (Ieee.scale_mul 0.05 v hv (by norm_num) (by norm_num))
    (by norm_num)
  unfold Ieee.gridFirst
  exact hc.relax (mul_nonneg (by norm_num) hv.value_nonneg) (by norm_num)

/-- One accumulation of the grid loop adds at most `2^-24 + 2^-40` to the relative error. -/
theorem Ieee.gridAcc_near (w W v e : ℚ) (cur m : Fp) (hv : Ieee.PixelValue v)
    (hw1 : 1 / 1024 ≤ w) (hw2 : w ≤ 1) (hW1 : 1 / 1024 ≤ W) (hW2 : W ≤ 1)
    (he1 : 1 / 1125899906842624 ≤ e) (he2 : e ≤ 1 / 1048576)
    (hcur : cur.Near (W * v) e) (hm : m.Near v (1 / 2251799813685248)) :
    (Ieee.gridAcc w cur m).Near ((W + w) * v) (e + (1 / 16777216 + 1 / 1099511627776)) := by
  have hwpos : 0 < w := lt_of_lt_of_le (by norm_num) hw1
  have hWpos : 0 < W := lt_of_lt_of_le (by norm_num) hW1
  have hp := (Ieee.near_weighted w v m hv hw1 hw2 hm).relax
    (mul_nonneg hwpos.le hv.value_nonneg) he1
  have hsc : Ieee.Scale (W * v + w * v) := by
    rw [← add_mul]
    exact Ieee.scale_mul (W + w) v hv (by linarith) (by linarith)
  have hs := Ieee.near_add64 cur _ (W * v) (w * v) e hcur hp hsc (by linarith)
  have hc := Ieee.near_cast32 _ _ _ hs hsc (by
    have : (e + (1 + e) / 9007199254740992 : ℚ) ≤ 1 / 2 := by linarith
    exact this)
  unfold Ieee.gridAcc
  rw [add_mul]
  refine hc.relax hsc.zero_le ?_
  have h1 : (1 + e) / 9007199254740992 ≤ 1 / 4503599627370496 := by
    rw [div_le_iff₀ (by norm_num)]; linarith
  have h2 : (1 + (e + (1 + e) / 9007199254740992)) / 16777216 ≤
      1 / 16777216 + 1 / 2199023255552 := by
    rw [div_le_iff₀ (by norm_num)]; linarith
  linarith

/-- On a frame all of whose pixels equal `v`, every patch mean computed by `cv::mean` is
within relative error `2^-51` of `v`. -/
theorem Ieee.patchMean_near (gray_img : Mat) (v : Nat)
    (hcols : 3 ≤ gray_img.cols) (hrows : 3 ≤ gray_img.rows)
    (hcols2 : gray_img.cols ≤ 65535) (hrows2 : gray_img.rows ≤ 65535) (hv : v ≤ 255)
    (hpix : ∀ r < gray_img.rows, ∀ c < gray_img.cols, gray_img.pix r c = v)
    (i j : Fin 3) :
    (Ieee.patchMean gray_img i j).Near (v : ℚ) (1 / 2251799813685248) := by
  have hin := patchRoi_inside gray_img i j
  have hsum : rectSum gray_img (patchRoi gray_img i j) =
      (patchRoi gray_img i j).height.toNat * ((patchRoi gray_img i j).width.toNat * v) := by
    apply rectSum_uniform
    intro dy hdy dx hdx
    apply hpix
    · obtain ⟨_, _, _, h4, h5, h6⟩ := hin
      omega
    · obtain ⟨h1, h2, h3, _, _, _⟩ := hin
      omega
  have hw : (patchRoi gray_img i j).width = ((gray_img.cols / 3 : Nat) : Int) := rfl
  have hh : (patchRoi gray_img i j).height = ((gray_img.rows / 3 : Nat) : Int) := rfl
  have hw1 : 1 ≤ gray_img.cols / 3 := by omega
  have hw2 : gray_img.cols / 3 ≤ 21845 := by omega
  have hh1 : 1 ≤ gray_img.rows / 3 := by omega
  have hh2 : gray_img.rows / 3 ≤ 21845 := by omega
  -- the pixel count `n` and the pixel sum `v * n`
  obtain ⟨n, hn⟩ : ∃ n : Nat, n = gray_img.cols / 3 * (gray_img.rows / 3) := ⟨_, rfl⟩
  have hn1 : 1 ≤ n := by rw [hn]; exact Nat.mul_pos hw1 hh1
  have hn2 : n ≤ 21845 * 21845 := by rw [hn]; exact Nat.mul_le_mul hw2 hh2
  have hnz : (patchRoi gray_img i j).width * (patchRoi gray_img i j).height = (n : Int) := by
    rw [hw, hh, hn]; push_cast; ring
  have hs : rectSum gray_img (patchRoi gray_img i j) = v * n := by
    rw [hsum, hw, hh, hn]
    simp only [Int.toNat_ofNat]
    ring
  have hnq1 : (1 : ℚ) ≤ n := by exact_mod_cast hn1
  have hnq2 : (n : ℚ) ≤ 477204025 := by exact_mod_cast hn2
  have hvq : (v : ℚ) ≤ 255 := by exact_mod_cast hv
  have hv0 : (0 : ℚ) ≤ v := by positivity
  have rs : binary64.round ((v * n : Nat) : ℚ) = Fp.fin ((v : ℚ) * n) := by
    have := Format.round_intCast64 ((v * n : Nat) : Int) (by
      push_cast
      rw [abs_of_nonneg (by positivity)]
      have : (v : ℚ) * n ≤ 255 * 477204025 := mul_le_mul hvq hnq2 (by positivity) (by norm_num)
      exact this.trans (by norm_num))
    push_cast at this ⊢
    exact this
  have rn : binary64.round (((n : Nat) : Int) : ℚ) = Fp.fin (n : ℚ) := by
    have := Format.round_intCast64 (n : Int) (by
      push_cast
      rw [abs_of_nonneg (by positivity)]
      exact hnq2.trans (by norm_num))
    push_cast at this ⊢
    exact this
  have hrec : (binary64.round ((1 : ℚ) / n)).Near (1 / n) (0 + (1 + 0) / 9007199254740992) := by
    apply Ieee.near_round64 _ _ 0 _ (by norm_num) (by simp)
    right
    constructor
    · rw [le_div_iff₀ (by linarith)]
      calc (2 : ℚ) ^ (-60 : Int) * n ≤ (2 : ℚ) ^ (-60 : Int) * 477204025 :=
            mul_le_mul_of_nonneg_left hnq2 (by positivity)
        _ ≤ 1 := by norm_num
    · rw [div_le_iff₀ (by linarith)]
      calc (1 : ℚ) ≤ 1 * n := by linarith
        _ ≤ (2 : ℚ) ^ (60 : Int) * n := mul_le_mul_of_nonneg_right (by norm_num) (by linarith)
  have hpv : Ieee.PixelValue (v : ℚ) := by
    rcases Nat.eq_zero_or_pos v with h0 | hpos
    · left; exact_mod_cast h0
    · right; exact ⟨by exact_mod_cast hpos, hvq⟩
  have hmul := Ieee.near_mul64 (Fp.fin ((v : ℚ) * n)) _ ((v : ℚ) * n) (1 / n) 0 _
    (Fp.Near.exact _) hrec (by positivity) (by positivity)
    (by
      have : (v : ℚ) * n * (1 / n) = v := by field_simp
      rw [this]; exact hpv.in_scale)
    (le_refl _) (by norm_num)
  have htarget : (v : ℚ) * n * (1 / n) = v := by field_simp
  rw [htarget] at hmul
  unfold Ieee.patchMean Ieee.rectMean
  simp only [hs, hnz]
  rw [rs, if_pos (by exact_mod_cast (by omega : n ≠ 0)), rn]
  have hdiv : Fp.div binary64 (Fp.fin 1) (Fp.fin (n : ℚ)) = binary64.round ((1 : ℚ) / n) := by
    simp only [Fp.div]
    rw [if_neg (by positivity)]
  rw [hdiv]
  exact hmul.relax hv0 (by norm_num)

/-! ## Properties of the controller -/

/-- C1 (clamping), counterexample: with the finite gains `Kp_ = 2^1023` and
`Kd_ = -2^1023`, state `(0, 0, 8)`, measured 50 and setpoint 10, the products
`Kp_ * error` and `Kd_ * derivative` overflow to `-∞` and `+∞`, their sum is NaN,
`std::clamp` returns NaN unchanged and `current_gain_` is not in `[0, 25]`. -/
theorem Ieee.gain_nan_for_huge_gains :
    Ieee.hugeGainNode.Kp_ = Fp.fin Ieee.hugeGain ∧
    Ieee.hugeGainNode.Kd_ = Fp.fin (-Ieee.hugeGain) ∧
    (Ieee.pidStep Ieee.hugeGainNode (Fp.fin 50) (Fp.fin 10)).current_gain_ = Fp.nan ∧
    ¬ (Ieee.pidStep Ieee.hugeGainNode (Fp.fin 50) (Fp.fin 10)).current_gain_.InRange 0 25 := by
  have r32 : binary32.round (-40 : ℚ) = Fp.fin (-40) := by
    have := Format.round_intCast32 (-40) (by norm_num [abs_le])
    norm_num at this ⊢
    exact this
  have r64 : binary64.round (-40 : ℚ) = Fp.fin (-40) := by
    have := Format.round_intCast64 (-40) (by norm_num [abs_le])
    norm_num at this ⊢
    exact this
  have herr : Fp.sub binary32 (Fp.fin 10) (Fp.fin 50) = Fp.fin (-40) := by
    simp only [Fp.sub, Fp.neg, Fp.add]
    rw [show ((10 : ℚ) + -50) = -40 by norm_num, r32]
  have hint : Fp.add binary64 (Fp.fin 0) (Fp.fin (-40)) = Fp.fin (-40) := by
    simp only [Fp.add]
    rw [show ((0 : ℚ) + -40) = -40 by norm_num, r64]
  have hder : Fp.cast binary32 (Fp.sub binary64 (Fp.fin (-40)) (Fp.fin 0)) = Fp.fin (-40) := by
    simp only [Fp.sub, Fp.neg, Fp.add]
    rw [show ((-40 : ℚ) + -0) = -40 by norm_num, r64]
    simp only [Fp.cast]
    exact r32
  have hp : Fp.mul binary64 (Fp.fin Ieee.hugeGain) (Fp.fin (-40)) = Fp.ninf := by
    simp only [Fp.mul]
    exact binary64.round_ninf _ (by decide) (by decide) (by
      have := Ieee.hugeGain_overflow
      have e : binary64.emax + 1 = (1023 : Int) + 1 := rfl
      rw [e]; linarith)
  have hi : Fp.mul binary64 (Fp.fin 0) (Fp.fin (-40)) = Fp.fin 0 := by
    simp only [Fp.mul]
    norm_num [Format.round]
  have hd : Fp.mul binary64 (Fp.fin (-Ieee.hugeGain)) (Fp.fin (-40)) = Fp.pinf := by
    simp only [Fp.mul]
    exact binary64.round_pinf _ (by decide) (by decide) (by
      have := Ieee.hugeGain_overflow
      have e : binary64.emax + 1 = (1023 : Int) + 1 := rfl
      rw [e]; linarith)
  have h1 : Fp.add binary64 Fp.ninf (Fp.fin 0) = Fp.ninf := by simp only [Fp.add]
  have h2 : Fp.add binary64 Fp.ninf Fp.pinf = Fp.nan := by simp only [Fp.add]
  have h3 : Fp.add binary64 (Fp.fin 8) Fp.nan = Fp.nan := by simp only [Fp.add]
  have hnan : (Ieee.pidStep Ieee.hugeGainNode (Fp.fin 50) (Fp.fin 10)).current_gain_ =
      Fp.nan := by
    rw [Ieee.pidStep_gain_eq]
    have k1 : Ieee.hugeGainNode.Kp_ = Fp.fin Ieee.hugeGain := rfl
    have k2 : Ieee.hugeGainNode.Ki_ = Fp.fin 0 := rfl
    have k3 : Ieee.hugeGainNode.Kd_ = Fp.fin (-Ieee.hugeGain) := rfl
    have k4 : Ieee.hugeGainNode.current_gain_ = Fp.fin 8 := rfl
    have k5 : Ieee.hugeGainNode.integral_ = Fp.fin 0 := rfl
    have k6 : Ieee.hugeGainNode.last_error_ = Fp.fin 0 := rfl
    rw [k1, k2, k3, k4, k5, k6, herr, hint, hder, hp, hi, hd, h1, h2, h3]
    exact Ieee.clamp_nan
  refine ⟨rfl, rfl, hnan, ?_⟩
  rw [hnan]
  rintro ⟨q, hq, -⟩
  exact Fp.noConfusion hq

/-- C1 as amended: whatever the node state, the gains and the inputs, a sequence of
`(measured, setpoint)` inputs produces one node per input and the `current_gain_` of
every node so produced is NaN or lies in `[0, 25]`; after one step it lies in `[0, 25]`
exactly when the sum passed to `std::clamp` is not NaN, which holds in particular when
gains, gain and integral have magnitude at most `2^400` and last error, measurement and
setpoint at most `2^100`; the same alternative holds for the node returned by
`imageCallback` when the controller is enabled. -/
theorem Ieee.gain_clamped_unless_nan (node : Ieee.Node) (inputs : List (Fp × Fp)) :
    (Ieee.pidTrace node inputs).length = inputs.length ∧
    (∀ s ∈ Ieee.pidTrace node inputs,
      s.current_gain_ = Fp.nan ∨ s.current_gain_.InRange 0 25) ∧
    (∀ measured setpoint : Fp,
      ((Ieee.pidUpdate node measured setpoint).current_gain_ ≠ Fp.nan →
        ((Ieee.pidStep node measured setpoint).current_gain_).InRange 0 25) ∧
      ((Ieee.pidUpdate node measured setpoint).current_gain_ = Fp.nan →
        (Ieee.pidStep node measured setpoint).current_gain_ = Fp.nan)) ∧
    (∀ measured setpoint : Fp,
      node.Kp_.Bdd 400 → node.Ki_.Bdd 400 → node.Kd_.Bdd 400 →
      node.current_gain_.Bdd 400 → node.integral_.Bdd 400 → node.last_error_.Bdd 100 →
      measured.Bdd 100 → setpoint.Bdd 100 →
        ((Ieee.pidStep node measured setpoint).current_gain_).InRange 0 25) ∧
    (∀ (gray_img : Mat) (armors : List Armor) (uninit : Fp) (node' : Ieee.Node),
      node.Use_AAG_ = true → Ieee.imageCallback node gray_img armors uninit = some node' →
        node'.current_gain_ = Fp.nan ∨ node'.current_gain_.InRange 0 25) := by
  refine ⟨?_, ?_, ?_, ?_, ?_⟩
  · induction inputs generalizing node with
    | nil => rfl
    | cons p rest ih => simp [Ieee.pidTrace, ih]
  · induction inputs generalizing node with
    | nil => simp [Ieee.pidTrace]
    | cons p rest ih =>
      obtain ⟨measured, setpoint⟩ := p
      intro s hs
      simp only [Ieee.pidTrace, List.mem_cons] at hs
      rcases hs with rfl | hs
      · exact Ieee.pidStep_gain_nan_or_range node measured setpoint
      · exact ih _ s hs
  · intro measured setpoint
    exact ⟨(Ieee.pidStep_gain_cases node measured setpoint).2,
      (Ieee.pidStep_gain_cases node measured setpoint).1⟩
  · intro measured setpoint hKp hKi hKd hg hi hl hm hs
    exact (Ieee.pidStep_gain_cases node measured setpoint).2
      (Ieee.pidUpdate_finite node measured setpoint hKp hKi hKd hg hi hl hm hs)
  · intro gray_img armors uninit node' hen hcb
    cases hm : Ieee.meter node gray_img armors uninit with
    | none => simp [Ieee.imageCallback, hen, hm] at hcb
    | some bt =>
      obtain ⟨b, t⟩ := bt
      rw [Ieee.imageCallback_step node gray_img armors uninit b t hen hm] at hcb
      cases hcb
      exact Ieee.pidStep_gain_nan_or_range node b t

/-- Witness of the amended C1: the default node, measured 50, setpoint 10. -/
theorem Ieee.gain_clamped_unless_nan_witness :
    ((Ieee.pidStep Ieee.defaultNode (Fp.fin 50) (Fp.fin 10)).current_gain_).InRange 0 25 :=
  (Ieee.gain_clamped_unless_nan Ieee.defaultNode []).2.2.2.1 (Fp.fin 50) (Fp.fin 10)
    Ieee.defaultNode_bdd.1 Ieee.defaultNode_bdd.2.1 Ieee.defaultNode_bdd.2.2.1
    Ieee.defaultNode_bdd.2.2.2.1 Ieee.defaultNode_bdd.2.2.2.2.1 Ieee.defaultNode_bdd.2.2.2.2.2
    (Fp.Bdd.fin_of_abs_le 50 100 (by norm_num [abs_le]))
    (Fp.Bdd.fin_of_abs_le 10 100 (by norm_num [abs_le]))

/-- C3 (disabled controller): with `Use_AAG_` false, `imageCallback` returns the node
unchanged for every frame and every detection result, and so does any sequence of
frames; in particular the controller state keeps its initial value. -/
theorem disabled_is_noop (node : Node) (h : node.Use_AAG_ = false) :
    (∀ gray_img armors uninit, imageCallback node gray_img armors uninit = some node) ∧
    (∀ frames, runFrames node frames = some node) ∧
    (∀ frames, (runFrames node frames).map Node.controller = some node.controller) := by
  have h1 : ∀ gray_img armors uninit, imageCallback node gray_img armors uninit = some node := by
    intro gray_img armors uninit
    simp [imageCallback, h]
  have h2 : ∀ frames, runFrames node frames = some node := by
    intro frames
    induction frames with
    | nil => rfl
    | cons f rest ih =>
      obtain ⟨gray_img, armors, uninit⟩ := f
      simp only [runFrames, h1, Option.some_bind, ih]
  exact ⟨h1, h2, fun frames => by rw [h2]; rfl⟩

/-- Witness of C3: the default node with the controller switched off, fed two frames,
one of them with an armor. -/
theorem disabled_is_noop_witness :
    ({ defaultNode with Use_AAG_ := false } : Node).Use_AAG_ = false ∧
    runFrames { defaultNode with Use_AAG_ := false }
        [(rampMat, [], 0), (rampMat, [⟨⟨1, 1, 2, 5⟩, ⟨6, 1, 2, 5⟩⟩], 0)] =
      some { defaultNode with Use_AAG_ := false } :=
  ⟨rfl, (disabled_is_noop { defaultNode with Use_AAG_ := false } rfl).2.1 _⟩

/-! ## Properties of the metering -/

/-- C6 (weighted-average invariant), counterexample: on the 6 by 6 frame all of whose
pixels equal 7 the grid loop returns `14680063/2097152 = 7 - 2^-21`, not 7: the `float`
accumulator rounds after each of the nine terms. -/
theorem Ieee.uniform_frame_not_exact :
    (∀ r c, (uniformMat 6 6 7).pix r c = 7) ∧
    Ieee.globalBrightness (uniformMat 6 6 7) Fp.nan = some (Fp.fin (14680063 / 2097152)) ∧
    Ieee.globalBrightness (uniformMat 6 6 7) Fp.nan ≠ some (Fp.fin 7) := by
  have w005 : binary64.round 0.05 = Fp.fin (3602879701896397 / 72057594037927936) := by
    apply Format.round_cert binary64 _ _ (-5) (-57) 7205759403792794 <;>
      norm_num [binary64, abs_lt, abs_of_pos]
  have w01 : binary64.round 0.1 = Fp.fin (3602879701896397 / 36028797018963968) := by
    apply Format.round_cert binary64 _ _ (-4) (-56) 7205759403792794 <;>
      norm_num [binary64, abs_lt, abs_of_pos]
  have w04 : binary64.round 0.4 = Fp.fin (3602879701896397 / 9007199254740992) := by
    apply Format.round_cert binary64 _ _ (-2) (-54) 7205759403792794 <;>
      norm_num [binary64, abs_lt, abs_of_pos]
  have p005 :
      Fp.mul binary64 (Fp.fin (3602879701896397 / 72057594037927936)) (Fp.fin 7) =
        Fp.fin (6305039478318695 / 18014398509481984) := by
    simp only [Fp.mul]
    apply Format.round_cert binary64 _ _ (-2) (-54) 6305039478318695 <;>
      norm_num [binary64, abs_lt, abs_of_pos]
  have p01 :
      Fp.mul binary64 (Fp.fin (3602879701896397 / 36028797018963968)) (Fp.fin 7) =
        Fp.fin (6305039478318695 / 9007199254740992) := by
    simp only [Fp.mul]
    apply Format.round_cert binary64 _ _ (-1) (-53) 6305039478318695 <;>
      norm_num [binary64, abs_lt, abs_of_pos]
  have p04 :
      Fp.mul binary64 (Fp.fin (3602879701896397 / 9007199254740992)) (Fp.fin 7) =
        Fp.fin (6305039478318695 / 2251799813685248) := by
    simp only [Fp.mul]
    apply Format.round_cert binary64 _ _ (1) (-51) 6305039478318695 <;>
      norm_num [binary64, abs_lt, abs_of_pos]
  have c0 :
      Fp.cast binary32 (Fp.fin (6305039478318695 / 18014398509481984)) =
        Fp.fin (11744051 / 33554432) := by
    simp only [Fp.cast]
    apply Format.round_cert binary32 _ _ (-2) (-25) 11744051 <;>
      norm_num [binary32, abs_lt, abs_of_pos]
  have s1 :
      Fp.add binary64 (Fp.fin (11744051 / 33554432))
        (Fp.fin (6305039478318695 / 9007199254740992)) =
        Fp.fin (1182194895473869 / 1125899906842624) := by
    simp only [Fp.add]
    apply Format.round_cert_tie binary64 _ _ (0) (-52) 4728779581895476 <;>
      norm_num [binary64, abs_lt, abs_of_pos, abs_of_neg]
  have c1 :
      Fp.cast binary32 (Fp.fin (1182194895473869 / 1125899906842624)) =
        Fp.fin (4404019 / 4194304) := by
    simp only [Fp.cast]
    apply Format.round_cert binary32 _ _ (0) (-23) 8808038 <;>
      norm_num [binary32, abs_lt, abs_of_pos]
  have s2 :
      Fp.add binary64 (Fp.fin (4404019 / 4194304)) (Fp.fin (6305039478318695 / 18014398509481984)) =
        Fp.fin (3152519631785165 / 2251799813685248) := by
    simp only [Fp.add]
    apply Format.round_cert binary64 _ _ (0) (-52) 6305039263570330 <;>
      norm_num [binary64, abs_lt, abs_of_pos]
  have c2 :
      Fp.cast binary32 (Fp.fin (3152519631785165 / 2251799813685248)) =
        Fp.fin (11744051 / 8388608) := by
    simp only [Fp.cast]
    apply Format.round_cert binary32 _ _ (0) (-23) 11744051 <;>
      norm_num [binary32, abs_lt, abs_of_pos]
  have s3 :
      Fp.add binary64 (Fp.fin (11744051 / 8388608)) (Fp.fin (6305039478318695 / 9007199254740992)) =
        Fp.fin (2364389777525965 / 1125899906842624) := by
    simp only [Fp.add]
    apply Format.round_cert binary64 _ _ (1) (-51) 4728779555051930 <;>
      norm_num [binary64, abs_lt, abs_of_pos]
  have c3 :
      Fp.cast binary32 (Fp.fin (2364389777525965 / 1125899906842624)) =
        Fp.fin (4404019 / 2097152) := by
    simp only [Fp.cast]
    apply Format.round_cert binary32 _ _ (1) (-22) 8808038 <;>
      norm_num [binary32, abs_lt, abs_of_pos]
  have s4 :
      Fp.add binary64 (Fp.fin (4404019 / 2097152)) (Fp.fin (6305039478318695 / 2251799813685248)) =
        Fp.fin (1379227359038669 / 281474976710656) := by
    simp only [Fp.add]
    apply Format.round_cert_tie binary64 _ _ (2) (-50) 5516909436154676 <;>
      norm_num [binary64, abs_lt, abs_of_pos, abs_of_neg]
  have c4 :
      Fp.cast binary32 (Fp.fin (1379227359038669 / 281474976710656)) =
        Fp.fin (10276045 / 2097152) := by
    simp only [Fp.cast]
    apply Format.round_cert binary32 _ _ (2) (-21) 10276045 <;>
      norm_num [binary32, abs_lt, abs_of_pos]
  have s5 :
      Fp.add binary64 (Fp.fin (10276045 / 2097152)) (Fp.fin (6305039478318695 / 9007199254740992)) =
        Fp.fin (6305039585692877 / 1125899906842624) := by
    simp only [Fp.add]
    apply Format.round_cert binary64 _ _ (2) (-50) 6305039585692877 <;>
      norm_num [binary64, abs_lt, abs_of_pos]
  have c5 :
      Fp.cast binary32 (Fp.fin (6305039585692877 / 1125899906842624)) =
        Fp.fin (11744051 / 2097152) := by
    simp only [Fp.cast]
    apply Format.round_cert binary32 _ _ (2) (-21) 11744051 <;>
      norm_num [binary32, abs_lt, abs_of_pos]
  have s6 :
      Fp.add binary64 (Fp.fin (11744051 / 2097152))
        (Fp.fin (6305039478318695 / 18014398509481984)) =
        Fp.fin (3349552169169715 / 562949953421312) := by
    simp only [Fp.add]
    apply Format.round_cert binary64 _ _ (2) (-50) 6699104338339430 <;>
      norm_num [binary64, abs_lt, abs_of_pos]
  have c6 :
      Fp.cast binary32 (Fp.fin (3349552169169715 / 562949953421312)) =
        Fp.fin (6239027 / 1048576) := by
    simp only [Fp.cast]
    apply Format.round_cert binary32 _ _ (2) (-21) 12478054 <;>
      norm_num [binary32, abs_lt, abs_of_pos]
  have s7 :
      Fp.add binary64 (Fp.fin (6239027 / 1048576)) (Fp.fin (6305039478318695 / 9007199254740992)) =
        Fp.fin (7487234165755085 / 1125899906842624) := by
    simp only [Fp.add]
    apply Format.round_cert binary64 _ _ (2) (-50) 7487234165755085 <;>
      norm_num [binary64, abs_lt, abs_of_pos]
  have c7 :
      Fp.cast binary32 (Fp.fin (7487234165755085 / 1125899906842624)) =
        Fp.fin (3486515 / 524288) := by
    simp only [Fp.cast]
    apply Format.round_cert binary32 _ _ (2) (-21) 13946060 <;>
      norm_num [binary32, abs_lt, abs_of_pos]
  have s8 :
      Fp.add binary64 (Fp.fin (3486515 / 524288)) (Fp.fin (6305039478318695 / 18014398509481984)) =
        Fp.fin (3940649459200819 / 562949953421312) := by
    simp only [Fp.add]
    apply Format.round_cert binary64 _ _ (2) (-50) 7881298918401638 <;>
      norm_num [binary64, abs_lt, abs_of_pos]
  have c8 :
      Fp.cast binary32 (Fp.fin (3940649459200819 / 562949953421312)) =
        Fp.fin (14680063 / 2097152) := by
    simp only [Fp.cast]
    apply Format.round_cert binary32 _ _ (2) (-21) 14680063 <;>
      norm_num [binary32, abs_lt, abs_of_pos]
  have hv : Ieee.globalBrightness (uniformMat 6 6 7) Fp.nan =
      some (Fp.fin (14680063 / 2097152)) := by
    have h := Ieee.patchMean_seven
    have h00 := h 0 0
    have h01 := h 0 1
    have h02 := h 0 2
    have h10 := h 1 0
    have h11 := h 1 1
    have h12 := h 1 2
    have h20 := h 2 0
    have h21 := h 2 1
    have h22 := h 2 2
    simp only [Fin.isValue, Fin.val_zero, Fin.val_one, Fin.val_two]
      at h00 h01 h02 h10 h11 h12 h20 h21 h22
    rw [Ieee.globalBrightness_unrolled, h00, h01, h02, h10, h11, h12, h20, h21, h22]
    unfold Ieee.gridFirst Ieee.gridAcc
    rw [w005, w01, w04, p005, p01, p04, c0, s1, c1, s2, c2, s3, c3, s4, c4, s5, c5, s6, c6,
      s7, c7, s8, c8]
  refine ⟨fun _ _ => rfl, hv, ?_⟩
  rw [hv]
  intro h
  have h' := Fp.fin.inj (Option.some.inj h)
  norm_num at h'

/-- C6 as amended: on a frame of width and height between 3 and 65535 all of whose
pixels equal `v`, with `v` at most 255, the grid loop returns a finite value `r` with
`|r - v| ≤ v / 2^20`. -/
theorem Ieee.uniform_frame_within_epsilon (gray_img : Mat) (v : Nat) (uninit : Fp)
    (hcols : 3 ≤ gray_img.cols) (hrows : 3 ≤ gray_img.rows)
    (hcols2 : gray_img.cols ≤ 65535) (hrows2 : gray_img.rows ≤ 65535) (hv : v ≤ 255)
    (hpix : ∀ r < gray_img.rows, ∀ c < gray_img.cols, gray_img.pix r c = v) :
    ∃ r : ℚ, Ieee.globalBrightness gray_img uninit = some (Fp.fin r) ∧
      |r - v| ≤ (v : ℚ) / 1048576 := by
  have hm := Ieee.patchMean_near gray_img v hcols hrows hcols2 hrows2 hv hpix
  have h00 := hm 0 0
  have h01 := hm 0 1
  have h02 := hm 0 2
  have h10 := hm 1 0
  have h11 := hm 1 1
  have h12 := hm 1 2
  have h20 := hm 2 0
  have h21 := hm 2 1
  have h22 := hm 2 2
  simp only [Fin.isValue, Fin.val_zero, Fin.val_one, Fin.val_two]
    at h00 h01 h02 h10 h11 h12 h20 h21 h22
  have hpv : Ieee.PixelValue (v : ℚ) := by
    rcases Nat.eq_zero_or_pos v with h0 | hpos
    · left; exact_mod_cast h0
    · right; exact ⟨by exact_mod_cast hpos, by exact_mod_cast hv⟩
  have s0 := Ieee.gridFirst_near v _ hpv h00
  have s1 := Ieee.gridAcc_near 0.1 _ v _ _ _ hpv (by norm_num) (by norm_num) (by norm_num)
    (by norm_num) (by norm_num) (by norm_num) s0 h01
  have s2 := Ieee.gridAcc_near 0.05 _ v _ _ _ hpv (by norm_num) (by norm_num) (by norm_num)
    (by norm_num) (by norm_num) (by norm_num) s1 h02
  have s3 := Ieee.gridAcc_near 0.1 _ v _ _ _ hpv (by norm_num) (by norm_num) (by norm_num)
    (by norm_num) (by norm_num) (by norm_num) s2 h10
  have s4 := Ieee.gridAcc_near 0.4 _ v _ _ _ hpv (by norm_num) (by norm_num) (by norm_num)
    (by norm_num) (by norm_num) (by norm_num) s3 h11
  have s5 := Ieee.gridAcc_near 0.1 _ v _ _ _ hpv (by norm_num) (by norm_num) (by norm_num)
    (by norm_num) (by norm_num) (by norm_num) s4 h12
  have s6 := Ieee.gridAcc_near 0.05 _ v _ _ _ hpv (by norm_num) (by norm_num) (by norm_num)
    (by norm_num) (by norm_num) (by norm_num) s5 h20
  have s7 := Ieee.gridAcc_near 0.1 _ v _ _ _ hpv (by norm_num) (by norm_num) (by norm_num)
    (by norm_num) (by norm_num) (by norm_num) s6 h21
  have s8 := Ieee.gridAcc_near 0.05 _ v _ _ _ hpv (by norm_num) (by norm_num) (by norm_num)
    (by norm_num) (by norm_num) (by norm_num) s7 h22
  obtain ⟨r, hr, hb⟩ := s8
  refine ⟨r, ?_, ?_⟩
  · rw [Ieee.globalBrightness_unrolled, hr]
  · have hv0 : (0 : ℚ) ≤ v := by positivity
    have e : ((0.05 + 0.1 + 0.05 + 0.1 + 0.4 + 0.1 + 0.05 + 0.1 + 0.05 : ℚ)) * v = v := by
      norm_num
    rw [e] at hb
    have h20 : (1 / 16777216 + 1 / 1099511627776 + (1 / 16777216 + 1 / 1099511627776) +
        (1 / 16777216 + 1 / 1099511627776) + (1 / 16777216 + 1 / 1099511627776) +
        (1 / 16777216 + 1 / 1099511627776) + (1 / 16777216 + 1 / 1099511627776) +
        (1 / 16777216 + 1 / 1099511627776) + (1 / 16777216 + 1 / 1099511627776) +
        (1 / 16777216 + 1 / 1099511627776) : ℚ) ≤ 1 / 1048576 := by norm_num
    calc |r - v| ≤ _ := hb
      _ ≤ 1 / 1048576 * (v : ℚ) := mul_le_mul_of_nonneg_right h20 hv0
      _ = (v : ℚ) / 1048576 := by ring

/-- Witness of the amended C6: the 6 by 6 frame of value 7. -/
theorem Ieee.uniform_frame_within_epsilon_witness :
    ∃ r : ℚ, Ieee.globalBrightness (uniformMat 6 6 7) Fp.nan = some (Fp.fin r) ∧
      |r - ((7 : Nat) : ℚ)| ≤ ((7 : Nat) : ℚ) / 1048576 :=
  Ieee.uniform_frame_within_epsilon (uniformMat 6 6 7) 7 Fp.nan (by decide) (by decide)
    (by decide) (by decide) (by decide) (fun _ _ _ _ => rfl)

/-- C7 (ROI expansion), failing input: in the 30 by 20 bar image the light bar
`(5, 2, 4, 20)` lies inside the frame and covers the bright columns 5 to 8, yet the
rectangle sampled for it is `(4, 0, 4, 22)`, columns 4 to 7: it does not contain the
light bar, the pixels of column 8 are not sampled, and the brightness returned is
`305/2` where every pixel of the light bar has value 200. -/
theorem narrow_light_not_contained :
    (⟨5, 2, 4, 20⟩ : Rect).inside barMat ∧
    lightBox ⟨5, 2, 4, 20⟩ barMat = ⟨4, 0, 4, 22⟩ ∧
    ¬ (lightBox ⟨5, 2, 4, 20⟩ barMat).containsRect ⟨5, 2, 4, 20⟩ ∧
    (⟨5, 2, 4, 20⟩ : Rect).hasPixel 2 8 ∧
    ¬ (lightBox ⟨5, 2, 4, 20⟩ barMat).hasPixel 2 8 ∧
    getLightMeanBrightness ⟨5, 2, 4, 20⟩ barMat = some (305 / 2) ∧
    roiMean barMat ⟨5, 2, 4, 20⟩ = some 200 := by
  refine ⟨by decide, lightBox_narrow, ?_, by decide, ?_, getLight_narrow, ?_⟩
  · rw [lightBox_narrow]
    decide
  · rw [lightBox_narrow]
    decide
  · rw [roiMean_eval _ _ 16000 (by decide) (by decide) (by decide)]
    norm_num

/-- C8 (invalid-region fallback), counterexample: the left light bar `(50, -50, 3, 3)`
lies entirely outside the 10 by 10 test image, yet the metering block yields the
targeted sample `79/4` with the armor setpoint 30, not the grid brightness 44 with the
global setpoint 10. -/
theorem no_fallback_for_outside_light :
    (⟨50, -50, 3, 3⟩ : Rect).outside rampMat ∧
    meter defaultNode rampMat [⟨⟨50, -50, 3, 3⟩, ⟨1, 1, 2, 5⟩⟩] 0 = some (79 / 4, 30) ∧
    (globalBrightness rampMat 0).map (fun g => (g, defaultNode.target_brightness_global_)) =
      some (44, 10) ∧
    meter defaultNode rampMat [⟨⟨50, -50, 3, 3⟩, ⟨1, 1, 2, 5⟩⟩] 0 ≠
      (globalBrightness rampMat 0).map (fun g => (g, defaultNode.target_brightness_global_)) := by
  have hm : meter defaultNode rampMat [⟨⟨50, -50, 3, 3⟩, ⟨1, 1, 2, 5⟩⟩] 0 =
      some (79 / 4, 30) := by
    simp only [meter, getArmorROI_far, defaultNode]
    norm_num
  have hg : (globalBrightness rampMat 0).map
      (fun g => (g, defaultNode.target_brightness_global_)) = some (44, 10) := by
    rw [globalBrightness_ramp]
    simp only [Option.map_some', defaultNode]
    norm_num
  refine ⟨by unfold Rect.outside; decide, hm, hg, ?_⟩
  rw [hm, hg]
  norm_num

/-- C8 as amended: on a frame with at least one row and one column, for an armor whose
two light bars are moderate (positive width and height of at most `2^29`, origin
coordinates of magnitude at most `2^29`), wherever they lie, the boundary check gives
for each light bar a non-empty rectangle inside the frame, each sample is the mean over
that rectangle, and the metering block yields the mean of the two samples with the
setpoint `target_brightness_armor_`; no fallback to the grid takes place. -/
theorem Ieee.outside_light_is_sampled (node : Ieee.Node) (gray_img : Mat) (armor : Armor)
    (rest : List Armor) (uninit : Fp)
    (hrows : 0 < gray_img.rows) (hcols : 0 < gray_img.cols)
    (hl : armor.left_light.Moderate) (hr : armor.right_light.Moderate) :
    ∃ bl br : Rect,
      Ieee.lightBox armor.left_light gray_img = some bl ∧
      Ieee.lightBox armor.right_light gray_img = some br ∧
      (0 < bl.width ∧ 0 < bl.height ∧ bl.inside gray_img) ∧
      (0 < br.width ∧ 0 < br.height ∧ br.inside gray_img) ∧
      Ieee.getLightMeanBrightness armor.left_light gray_img =
        some (Fp.cast binary32 (Ieee.rectMean gray_img bl)) ∧
      Ieee.getLightMeanBrightness armor.right_light gray_img =
        some (Fp.cast binary32 (Ieee.rectMean gray_img br)) ∧
      Ieee.meter node gray_img (armor :: rest) uninit =
        some (Fp.cast binary32 (Fp.div binary64
            (Fp.add binary32 (Fp.cast binary32 (Ieee.rectMean gray_img bl))
              (Fp.cast binary32 (Ieee.rectMean gray_img br))) (Fp.fin 2)),
          Fp.cast binary32 node.target_brightness_armor_) := by
  obtain ⟨bl, hbl, hl1, hl2, hlin⟩ :=
    Ieee.lightBox_nonempty_inside armor.left_light gray_img hrows hcols hl
  obtain ⟨br, hbr, hr1, hr2, hrin⟩ :=
    Ieee.lightBox_nonempty_inside armor.right_light gray_img hrows hcols hr
  have gl := Ieee.getLight_eq armor.left_light gray_img bl hbl hlin
  have gr := Ieee.getLight_eq armor.right_light gray_img br hbr hrin
  refine ⟨bl, br, hbl, hbr, ⟨hl1, hl2, hlin⟩, ⟨hr1, hr2, hrin⟩, gl, gr, ?_⟩
  simp only [Ieee.meter, Ieee.getArmorROI, gl, gr, Option.pure_def, Option.bind_eq_bind,
    Option.some_bind]

/-- Witness of the amended C8: an armor whose left light bar lies entirely outside the
10 by 10 test image. -/
theorem Ieee.outside_light_is_sampled_witness :
    (⟨50, -50, 3, 3⟩ : Rect).outside rampMat ∧
    ∃ bl br : Rect,
      Ieee.lightBox ⟨50, -50, 3, 3⟩ rampMat = some bl ∧
      Ieee.lightBox ⟨1, 1, 2, 5⟩ rampMat = some br ∧
      (0 < bl.width ∧ 0 < bl.height ∧ bl.inside rampMat) ∧
      (0 < br.width ∧ 0 < br.height ∧ br.inside rampMat) ∧
      Ieee.getLightMeanBrightness ⟨50, -50, 3, 3⟩ rampMat =
        some (Fp.cast binary32 (Ieee.rectMean rampMat bl)) ∧
      Ieee.getLightMeanBrightness ⟨1, 1, 2, 5⟩ rampMat =
        some (Fp.cast binary32 (Ieee.rectMean rampMat br)) ∧
      Ieee.meter Ieee.defaultNode rampMat [⟨⟨50, -50, 3, 3⟩, ⟨1, 1, 2, 5⟩⟩] Fp.nan =
        some (Fp.cast binary32 (Fp.div binary64
            (Fp.add binary32 (Fp.cast binary32 (Ieee.rectMean rampMat bl))
              (Fp.cast binary32 (Ieee.rectMean rampMat br))) (Fp.fin 2)),
          Fp.cast binary32 Ieee.defaultNode.target_brightness_armor_) :=
  ⟨by decide,
   Ieee.outside_light_is_sampled Ieee.defaultNode rampMat
    ⟨⟨50, -50, 3, 3⟩, ⟨1, 1, 2, 5⟩⟩ [] Fp.nan (by decide) (by decide) (by decide)
    (by decide)⟩

/-- C9 (grid covers the frame), counterexample: in a frame of 3 rows and 4 columns the
pixel at row 0, column 3 lies in none of the nine patches. -/
theorem grid_misses_remainder_pixels :
    ¬ (∀ gray_img : Mat, 3 ≤ gray_img.cols → 3 ≤ gray_img.rows →
        ∀ row < gray_img.rows, ∀ col < gray_img.cols,
          ∃ i j : Fin 3, (patchRoi gray_img i j).hasPixel row col) := by
  intro h
  obtain ⟨i, j, h1, h2, -, -⟩ := h (uniformMat 3 4 0) (by decide) (by decide) 0 (by decide) 3
    (by decide)
  fin_cases j <;> simp [patchRoi, uniformMat] at h1 h2

/-- C9 as amended: for every frame the nine patches all have width `cols / 3` and
height `rows / 3` and lie inside the frame, no pixel lies in two of them, and together
they contain exactly the pixels of column below `3 * (cols / 3)` and row below
`3 * (rows / 3)`; the remainder columns and rows belong to no patch. -/
theorem grid_patches_partition (gray_img : Mat) :
    (∀ i j : Fin 3,
      (patchRoi gray_img i j).width = ((gray_img.cols / 3 : Nat) : Int) ∧
      (patchRoi gray_img i j).height = ((gray_img.rows / 3 : Nat) : Int) ∧
      (patchRoi gray_img i j).inside gray_img) ∧
    (∀ (i j i' j' : Fin 3) (row col : Nat),
      (patchRoi gray_img i j).hasPixel row col ∧
        (patchRoi gray_img i' j').hasPixel row col → i = i' ∧ j = j') ∧
    (∀ row col : Nat,
      (∃ i j : Fin 3, (patchRoi gray_img i j).hasPixel row col) ↔
        col < 3 * (gray_img.cols / 3) ∧ row < 3 * (gray_img.rows / 3)) := by
  refine ⟨fun i j => ⟨rfl, rfl, patchRoi_inside gray_img i j⟩, ?_, ?_⟩
  · rintro i j i' j' row col ⟨⟨h1, h2, h3, h4⟩, ⟨h5, h6, h7, h8⟩⟩
    simp only [patchRoi] at h1 h2 h3 h4 h5 h6 h7 h8
    exact ⟨patch_col_unique _ row i i' h3 h4 h7 h8, patch_col_unique _ col j j' h1 h2 h5 h6⟩
  · intro row col
    rw [← patch_col_cover (gray_img.cols / 3) col, ← patch_col_cover (gray_img.rows / 3) row]
    simp only [Rect.hasPixel, patchRoi]
    constructor
    · rintro ⟨i, j, h1, h2, h3, h4⟩
      exact ⟨⟨j, h1, h2⟩, ⟨i, h3, h4⟩⟩
    · rintro ⟨⟨j, h1, h2⟩, ⟨i, h3, h4⟩⟩
      exact ⟨i, j, h1, h2, h3, h4⟩

/-- C10 (sampling stays inside the frame), counterexample: for the light bar
`(0, 0, 2000000000, 1)` on a 10 by 10 frame the scaled width is `2280000000.0f`, which
does not fit in an `int`; the conversion is undefined and `getLightMeanBrightness`
returns no value. -/
theorem Ieee.huge_light_not_sampled :
    0 < (uniformMat 10 10 0).rows ∧ 0 < (uniformMat 10 10 0).cols ∧
    0 < (⟨0, 0, 2000000000, 1⟩ : Rect).width ∧
    0 < (⟨0, 0, 2000000000, 1⟩ : Rect).height ∧
    Fp.add binary32 (Ieee.ofInt 2000000000)
      (Fp.mul binary32 (Fp.mul binary32 (Ieee.ofInt 2000000000) Ieee.SCALE) (Ieee.ofInt 2)) =
        Fp.fin 2280000000 ∧
    Ieee.lightBox ⟨0, 0, 2000000000, 1⟩ (uniformMat 10 10 0) = none ∧
    Ieee.getLightMeanBrightness ⟨0, 0, 2000000000, 1⟩ (uniformMat 10 10 0) = none := by
  have hw : Ieee.ofInt 2000000000 = Fp.fin 2000000000 := by
    unfold Ieee.ofInt
    apply Format.round_cert binary32 _ _ 30 7 15625000 <;>
      norm_num [binary32, abs_lt, abs_of_pos]
  have h2 : Ieee.ofInt 2 = Fp.fin 2 := by
    have := Format.round_intCast32 2 (by norm_num [abs_le])
    simpa [Ieee.ofInt] using this
  have ha : Fp.mul binary32 (Fp.fin 2000000000) (Fp.fin (9395241 / 134217728)) =
      Fp.fin 140000000 := by
    simp only [Fp.mul]
    apply Format.round_cert binary32 _ _ 27 4 8750000 <;>
      norm_num [binary32, abs_lt, abs_of_pos]
  have hb : Fp.mul binary32 (Fp.fin 140000000) (Fp.fin 2) = Fp.fin 280000000 := by
    simp only [Fp.mul]
    apply Format.round_cert binary32 _ _ 28 5 8750000 <;>
      norm_num [binary32, abs_lt, abs_of_pos]
  have hc : Fp.add binary32 (Fp.fin 2000000000) (Fp.fin 280000000) = Fp.fin 2280000000 := by
    simp only [Fp.add]
    apply Format.round_cert binary32 _ _ 31 8 8906250 <;>
      norm_num [binary32, abs_lt, abs_of_pos]
  have hsum : Fp.add binary32 (Ieee.ofInt 2000000000)
      (Fp.mul binary32 (Fp.mul binary32 (Ieee.ofInt 2000000000) Ieee.SCALE) (Ieee.ofInt 2)) =
        Fp.fin 2280000000 := by
    rw [hw, h2, Ieee.SCALE_eq, ha, hb, hc]
  have hnone : Fp.toInt (Fp.fin 2280000000) = none := by
    have ht : truncToInt 2280000000 = 2280000000 :=
      truncToInt_eq _ _ (by norm_num) (by norm_num) (by norm_num)
    simp only [Fp.toInt, ht]
    rw [if_neg (by omega)]
  have hl : Ieee.lightBox ⟨0, 0, 2000000000, 1⟩ (uniformMat 10 10 0) = none :=
    Ieee.lightBox_none_of_width _ _ (by rw [hsum]; exact hnone)
  refine ⟨by decide, by decide, by decide, by decide, hsum, hl, ?_⟩
  simp only [Ieee.getLightMeanBrightness, hl, Option.bind_eq_bind, Option.none_bind]

/-- C10 as amended: on a frame with at least one row and one column, for a moderate
light bar (positive width and height of at most `2^29`, origin coordinates of
magnitude at most `2^29`) at any position, the rectangle passed to the pixel mean is
defined, non-empty, has a non-negative origin and ends within the frame, and
`getLightMeanBrightness` returns the mean over it instead of throwing. -/
theorem Ieee.moderate_light_sampled_inside (light : Light) (gray_img : Mat)
    (hrows : 0 < gray_img.rows) (hcols : 0 < gray_img.cols) (hl : light.Moderate) :
    ∃ b : Rect, Ieee.lightBox light gray_img = some b ∧
      0 < b.width ∧ 0 < b.height ∧ 0 ≤ b.x ∧ 0 ≤ b.y ∧
      b.x + b.width ≤ gray_img.cols ∧ b.y + b.height ≤ gray_img.rows ∧
      Ieee.getLightMeanBrightness light gray_img =
        some (Fp.cast binary32 (Ieee.rectMean gray_img b)) := by
  obtain ⟨b, hb, h1, h2, hin⟩ := Ieee.lightBox_nonempty_inside light gray_img hrows hcols hl
  obtain ⟨h3, -, h4, h5, -, h6⟩ := hin
  exact ⟨b, hb, h1, h2, h3, h5, h4, h6,
    Ieee.getLight_eq light gray_img b hb ⟨h3, h1.le, h4, h5, h2.le, h6⟩⟩

/-- Witness of the amended C10: a light bar lying entirely outside the 10 by 10 test
image, with a negative ordinate. -/
theorem Ieee.moderate_light_sampled_inside_witness :
    (⟨50, -50, 3, 3⟩ : Rect).outside rampMat ∧
    ∃ b : Rect, Ieee.lightBox ⟨50, -50, 3, 3⟩ rampMat = some b ∧
      0 < b.width ∧ 0 < b.height ∧ 0 ≤ b.x ∧ 0 ≤ b.y ∧
      b.x + b.width ≤ rampMat.cols ∧ b.y + b.height ≤ rampMat.rows ∧
      Ieee.getLightMeanBrightness ⟨50, -50, 3, 3⟩ rampMat =
        some (Fp.cast binary32 (Ieee.rectMean rampMat b)) :=
  ⟨by decide,
   Ieee.moderate_light_sampled_inside ⟨50, -50, 3, 3⟩ rampMat (by decide) (by decide)
    (by decide)⟩

end RmAutoAim
